import Mathlib

/-!
Verification development for the DHT discovery layer and the per-partition
gossip overlay of the network monorepo.

The embedding below translates `packages/network/src/dht/DhtNode.ts` together
with the data structures it uses:

* `KBucket` models the external npm `k-bucket` library that `DhtNode.ts`
  imports (`new KBucket({localNodeId, numberOfNodesPerKBucket})`, `add`,
  `get`, `closest`, `count`): a binary tree of buckets of capacity
  `numberOfNodesPerKBucket`, split along the bits of the ids, where only the
  subtree containing `localNodeId` may split further and `closest` collects
  contacts by a target-first depth-first traversal and then stable-sorts them
  by XOR distance.
* `SortedContactList` and `Contact` are repository files imported by
  `DhtNode.ts` that are not part of the source snapshot; they are modelled
  from the specification (each carries a doc comment saying so).
* `NodeState`, `getClosestNodesTo`, `findMoreContacts` and `joinDht` are
  translated directly from `DhtNode.ts`.  The mutable heap of interconnected
  `DhtNode` objects is modelled as a function `World : Nat → NodeState`;
  a `Contact`'s `dhtNode` object reference becomes the index of the node it
  points at.  The `while (true)` loops of `joinDht` are modelled with an
  explicit fuel parameter so that termination is a theorem, not an artifact
  of the encoding.
-/

/-- A node id: a byte string, exactly the `Uint8Array` ids of the source. -/
abbrev NodeId := List Nat

/-- XOR distance between two ids, translated from the `distance` function of
the k-bucket library: big-endian byte-wise XOR accumulated as an unsigned
integer, with missing bytes of the shorter id contributing `255`. -/
def kdist (x y : NodeId) : Nat :=
  (List.range (Nat.max x.length y.length)).foldl
    (fun d i =>
      if i < Nat.min x.length y.length then
        d * 256 + (x.getD i 0 ^^^ y.getD i 0)
      else
        d * 256 + 255)
    0

/-- Bit `bitIndex` of an id, most significant bit of the first byte first;
out-of-range bits read as `0`.  Translated from `_determineNode` of the
k-bucket library (`true` = descend right). -/
def idBit (id : NodeId) (bitIndex : Nat) : Bool :=
  match id.get? (bitIndex / 8) with
  | none => false
  | some b => b &&& (1 <<< (7 - bitIndex % 8)) ≠ 0

/-- A contact: an id plus the object reference to the `DhtNode` it can be
probed at, modelled as the node's index in the world.  Translated from
`Contact.ts` usage in `DhtNode.ts`: `new Contact(id, dhtNode)`. -/
structure Contact where
  id : NodeId
  dhtNode : Nat
deriving DecidableEq, Repr

/-! ## The k-bucket library -/

/-- The binary tree of buckets of the k-bucket library: a leaf holds up to
`numberOfNodesPerKBucket` contacts and a `dontSplit` flag; an internal node
has a left (bit = 0) and right (bit = 1) child. -/
inductive KBTree where
  | leaf (contacts : List Contact) (dontSplit : Bool)
  | node (left right : KBTree)
deriving DecidableEq, Repr

/-- All contacts stored in a tree, left to right. -/
def KBTree.allContacts : KBTree → List Contact
  | .leaf cs _ => cs
  | .node l r => l.allContacts ++ r.allContacts

/-- Depth of the tree. -/
def KBTree.depth : KBTree → Nat
  | .leaf _ _ => 0
  | .node l r => 1 + Nat.max l.depth r.depth

/-- Number of tree nodes, used as a termination measure for traversals. -/
def KBTree.weight : KBTree → Nat
  | .leaf _ _ => 1
  | .node l r => 1 + l.weight + r.weight

/-- One `add` of the k-bucket library, translated from its `add`/`_split`:
descend along the bits of `c.id`; in the target leaf, an existing contact
with the same id is replaced and moved to the tail (the default arbiter
selects the candidate), a non-full leaf appends, a full `dontSplit` leaf
drops the contact (the `ping` event has no listener in `DhtNode.ts`), and a
full splittable leaf splits by the current bit — the child on the side of
`localNodeId` may split further, the other child gets `dontSplit` — after
which the add is retried (the library re-adds from the root, which descends
the unchanged path back to the freshly split node).  The fuel bounds the
split chain; the wrapper `KBucket.add` supplies more fuel than any run with
distinct fixed-length ids can consume. -/
def KBTree.insertC (k : Nat) (localId : NodeId) (c : Contact) :
    Nat → Nat → KBTree → KBTree
  | 0, _, t => t
  | fuel + 1, bi, .node l r =>
      if idBit c.id bi then .node l (insertC k localId c fuel (bi + 1) r)
      else .node (insertC k localId c fuel (bi + 1) l) r
  | fuel + 1, bi, .leaf cs ds =>
      if cs.any (fun x => x.id = c.id) then
        .leaf (cs.eraseP (fun x => x.id = c.id) ++ [c]) ds
      else if cs.length < k then
        .leaf (cs ++ [c]) ds
      else if ds then
        .leaf cs ds
      else
        let lcs := cs.filter (fun x => ¬ idBit x.id bi)
        let rcs := cs.filter (fun x => idBit x.id bi)
        let t : KBTree :=
          if idBit localId bi then .node (.leaf lcs true) (.leaf rcs false)
          else .node (.leaf lcs false) (.leaf rcs true)
        insertC k localId c fuel bi t

/-- The k-bucket structure as constructed by `DhtNode.ts`:
`new KBucket({ localNodeId: this.ownId, numberOfNodesPerKBucket: this.K })`. -/
structure KBucket where
  localNodeId : NodeId
  numberOfNodesPerKBucket : Nat
  root : KBTree
deriving DecidableEq, Repr

/-- A fresh k-bucket: a single empty splittable leaf. -/
def KBucket.empty (localId : NodeId) (k : Nat) : KBucket :=
  { localNodeId := localId, numberOfNodesPerKBucket := k, root := .leaf [] false }

/-- `KBucket.add`, wrapping the leaf-level insert with ample fuel: the
descent uses at most `depth` steps and every split advances the bit index,
which for distinct ids of length `L` exceeds `8 * L` only in degenerate
prefix-id situations on which the original library itself diverges. -/
def KBucket.add (b : KBucket) (c : Contact) : KBucket :=
  let fuel := b.root.depth + 8 * (c.id.length + b.localNodeId.length + 2) + 9
  { b with root := KBTree.insertC b.numberOfNodesPerKBucket b.localNodeId c fuel 0 b.root }

/-- `KBucket.get`: descend by the bits of the id to the one leaf that could
hold it and search there.  Translated from the library's `get`. -/
def KBTree.getC : Nat → KBTree → NodeId → Option Contact
  | _, .leaf cs _, i => cs.find? (fun x => x.id = i)
  | bi, .node l r, i => if idBit i bi then r.getC (bi + 1) i else l.getC (bi + 1) i

/-- `KBucket.get` of the library. -/
def KBucket.get (b : KBucket) (i : NodeId) : Option Contact :=
  b.root.getC 0 i

/-- `KBucket.count` of the library: the total number of stored contacts. -/
def KBucket.count (b : KBucket) : Nat :=
  b.root.allContacts.length

/-- The collection loop of the library's `closest`: a stack of subtrees with
the top at the head, a single bit counter shared by the whole traversal
(incremented once per expanded internal node, exactly as in the source), and
an early stop once `n` contacts have been collected.  On expansion the
target-side child is pushed on top, so it is drained first.  Every iteration
shrinks the total weight of the stack by one, so the fuel supplied by
`KBucket.closest` (the weight of the root plus one) always suffices. -/
def KBTree.collectGo (target : NodeId) (nBound : Option Nat) :
    Nat → List KBTree → Nat → List Contact → List Contact
  | 0, _, _, acc => acc
  | _ + 1, [], _, acc => acc
  | fuel + 1, t :: rest, bi, acc =>
    if (nBound.map (fun n => decide (n ≤ acc.length))).getD false then acc
    else
      match t with
      | .leaf cs _ => collectGo target nBound fuel rest bi (acc ++ cs)
      | .node l r =>
          if idBit target bi then collectGo target nBound fuel (r :: l :: rest) (bi + 1) acc
          else collectGo target nBound fuel (l :: r :: rest) (bi + 1) acc

/-- `KBucket.closest(id, n)` of the library: collect (with early stop),
stable-sort ascending by XOR distance to the target, slice to `n`.
`n = none` models the `Infinity` default used by `getClosestNodesTo`. -/
def KBucket.closest (b : KBucket) (target : NodeId) (nBound : Option Nat) : List Contact :=
  let collected := KBTree.collectGo target nBound (b.root.weight + 1) [b.root] 0 []
  let sorted := collected.insertionSort (fun a c => kdist a.id target ≤ kdist c.id target)
  match nBound with
  | none => sorted
  | some n => sorted.take n

/-! ## SortedContactList (modelled from the spec) -/

/-- Modelled from the spec: an entry of `SortedContactList` — a contact plus
the `contacted` (an outbound lookup RPC was attempted) and `active` (the RPC
succeeded) flags.  `SortedContactList.ts` is not part of the source
snapshot. -/
structure SCLEntry where
  contact : Contact
  contacted : Bool := false
  active : Bool := false
deriving DecidableEq, Repr

/-- Modelled from the spec: `SortedContactList` — an ordered sequence of
contacts, bounded to `K` entries, always sorted ascending by XOR distance to
the owner id, with per-entry `contacted`/`active` flags. -/
structure SortedContactList where
  ownId : NodeId
  contacts : List SCLEntry := []
deriving DecidableEq, Repr

/-- The `K` constant of `DhtNode.ts` (`private K = 8`): bucket width and
neighbor-list capacity. -/
def Kconst : Nat := 8

/-- The `ALPHA` constant of `DhtNode.ts` (`private ALPHA = 3`). -/
def ALPHA : Nat := 3

/-- Modelled from the spec: insertion preserving ascending distance order,
with an entry of equal distance placed after the existing ones (order of
application is the tie-break, so insertion is stable). -/
def insertFar (own : NodeId) (e : SCLEntry) : List SCLEntry → List SCLEntry
  | [] => [e]
  | x :: xs =>
      if kdist own x.contact.id ≤ kdist own e.contact.id then x :: insertFar own e xs
      else e :: x :: xs

/-- Modelled from the spec: `addContact(c)` inserts preserving sort order,
is a no-op if the id is already present, and evicts the farthest entry (the
last one) if the list exceeds `K` entries after insertion. -/
def SortedContactList.addContact (l : SortedContactList) (c : Contact) : SortedContactList :=
  if l.contacts.any (fun e => e.contact.id = c.id) then l
  else
    let inserted := insertFar l.ownId { contact := c } l.contacts
    { l with contacts := if Kconst < inserted.length then inserted.dropLast else inserted }

/-- Modelled from the spec: `addContacts(list)` applies `addContact` to each
element in order. -/
def SortedContactList.addContacts (l : SortedContactList) (cs : List Contact) : SortedContactList :=
  cs.foldl SortedContactList.addContact l

/-- Modelled from the spec: `setContacted(id)` marks the flag, silently a
no-op if the id is absent. -/
def SortedContactList.setContacted (l : SortedContactList) (i : NodeId) : SortedContactList :=
  { l with contacts :=
      l.contacts.map (fun e => if e.contact.id = i then { e with contacted := true } else e) }

/-- Modelled from the spec: `setActive(id)` marks the flag, silently a no-op
if the id is absent. -/
def SortedContactList.setActive (l : SortedContactList) (i : NodeId) : SortedContactList :=
  { l with contacts :=
      l.contacts.map (fun e => if e.contact.id = i then { e with active := true } else e) }

/-- Modelled from the spec: `getUncontactedContacts(limit)` returns up to
`limit` not-yet-contacted contacts in ascending distance order. -/
def SortedContactList.getUncontactedContacts (l : SortedContactList) (limit : Nat) : List Contact :=
  ((l.contacts.filter (fun e => ¬ e.contacted)).take limit).map (·.contact)

/-- Modelled from the spec: `getClosestContactId()` returns the id of the
entry at index 0, or the sentinel `none` if the list is empty. -/
def SortedContactList.getClosestContactId (l : SortedContactList) : Option NodeId :=
  l.contacts.head?.map (·.contact.id)

/-- Modelled from the spec: `getActiveContacts()` filters the entries with
`active = true`. -/
def SortedContactList.getActiveContacts (l : SortedContactList) : List Contact :=
  (l.contacts.filter (fun e => e.active)).map (·.contact)

/-! ## DhtNode -/

/-- The per-node state of `DhtNode.ts`: own id, the k-bucket, the neighbor
list and the two diagnostic RPC counters. -/
structure NodeState where
  ownId : NodeId
  bucket : KBucket
  neighborList : SortedContactList
  numberOfIncomingRpcCalls : Nat := 0
  numberOfOutgoingRpcCalls : Nat := 0
deriving DecidableEq, Repr

/-- The `DhtNode` constructor: fresh bucket with `localNodeId = ownId` and
`numberOfNodesPerKBucket = K`, empty neighbor list, zeroed counters. -/
def mkDhtNode (ownId : NodeId) : NodeState :=
  { ownId := ownId
    bucket := KBucket.empty ownId Kconst
    neighborList := { ownId := ownId } }

/-- `getClosestNodesTo(id, caller)` translated from `DhtNode.ts`: increment
the incoming-RPC counter, compute `ret = bucket.closest(id)` (no count
argument, hence no bound), then — if no contact with the searched id is in
the bucket — create `new Contact(id, caller)` and add it to the bucket and
the neighbor list; finally return `ret`. -/
def getClosestNodesTo (st : NodeState) (id : NodeId) (caller : Nat) :
    List Contact × NodeState :=
  let st := { st with numberOfIncomingRpcCalls := st.numberOfIncomingRpcCalls + 1 }
  let ret := st.bucket.closest id none
  let st :=
    if (st.bucket.get id).isSome then st
    else
      { st with
          bucket := st.bucket.add { id := id, dhtNode := caller }
          neighborList := st.neighborList.addContact { id := id, dhtNode := caller } }
  (ret, st)

/-- The heap of `DhtNode` objects: node index to node state. -/
abbrev World := Nat → NodeState

/-- Read a node. -/
def getN (w : World) (i : Nat) : NodeState := w i

/-- Write a node. -/
def setN (w : World) (i : Nat) (st : NodeState) : World := Function.update w i st

/-- One iteration of the `forEach` body of `findMoreContacts`, translated in
order from `DhtNode.ts`: mark the contact contacted and active on the
shortlist (which at the only call site is `this.neighborList`), bump the
outgoing-RPC counter, perform `contact.dhtNode.getClosestNodesTo(this.ownId,
this)` on the referenced node, merge the returned contacts into the
shortlist, and add each unknown returned contact to the own bucket. -/
def processOneContact (selfIdx : Nat) (c : Contact) (w : World) : World :=
  let st0 := getN w selfIdx
  let w1 := setN w selfIdx
    { st0 with
        neighborList := (st0.neighborList.setContacted c.id).setActive c.id
        numberOfOutgoingRpcCalls := st0.numberOfOutgoingRpcCalls + 1 }
  let ownId := (getN w1 selfIdx).ownId
  let rpc := getClosestNodesTo (getN w1 c.dhtNode) ownId selfIdx
  let w2 := setN w1 c.dhtNode rpc.2
  let st2 := getN w2 selfIdx
  let w3 := setN w2 selfIdx
    { st2 with neighborList := st2.neighborList.addContacts rpc.1 }
  let st3 := getN w3 selfIdx
  setN w3 selfIdx
    { st3 with
        bucket := rpc.1.foldl
          (fun b rc => if (b.get rc.id).isSome then b else b.add rc) st3.bucket }

/-- `findMoreContacts(contactList, shortlist)` of `DhtNode.ts` (the
shortlist being `this.neighborList` at the only call site). -/
def findMoreContacts (selfIdx : Nat) (cs : List Contact) (w : World) : World :=
  cs.foldl (fun w c => processOneContact selfIdx c w) w

/-- The closest contact id of a node's neighbor list. -/
def closestIdOf (w : World) (i : Nat) : Option NodeId :=
  (getN w i).neighborList.getClosestContactId

/-- The XOR distance of the neighbor list's closest contact to the list's
owner id; `none` is the empty-list sentinel (infinite distance). -/
def closestDistOf (w : World) (i : Nat) : Option Nat :=
  (closestIdOf w i).map (kdist (getN w i).neighborList.ownId)

/-- The active-contact count of a node's neighbor list. -/
def activeCountOf (w : World) (i : Nat) : Nat :=
  (getN w i).neighborList.getActiveContacts.length

/-- The record of one probe round of `joinDht`: the width passed to
`getUncontactedContacts` for this round, the closest contact id (and its
distance to the owner) before and after the round, and the active-contact
count after the round. -/
structure ProbeRound where
  width : Nat
  idBefore : Option NodeId
  idAfter : Option NodeId
  distBefore : Option Nat
  distAfter : Option Nat
  activeAfter : Nat
deriving DecidableEq, Repr

/-- Whether a probe round left the closest contact id unchanged (the
convergence test of `joinDht`). -/
def ProbeRound.stagnated (r : ProbeRound) : Bool :=
  r.idBefore = r.idAfter

/-- Build the record of the round that turned `w` into `w1`. -/
def mkRound (selfIdx width : Nat) (w w1 : World) : ProbeRound :=
  { width := width
    idBefore := closestIdOf w selfIdx
    idAfter := closestIdOf w1 selfIdx
    distBefore := closestDistOf w selfIdx
    distAfter := closestDistOf w1 selfIdx
    activeAfter := activeCountOf w1 selfIdx }

/-- The inner `while (true)` loop of `joinDht`, with fuel and an execution
trace.  Translated from `DhtNode.ts`: capture the old closest id, probe the
pre-computed uncontacted contacts, return when the active-contact count
reaches `K` or the closest id is unchanged, otherwise continue with the next
`ALPHA` uncontacted contacts.  `width` is the limit that was passed to
`getUncontactedContacts` when `u` was computed (`K` on entry from the outer
loop, `ALPHA` on self-iteration); it is recorded in the trace. -/
def innerLoopT (selfIdx : Nat) :
    Nat → Nat → List Contact → World → Option (World × List ProbeRound)
  | 0, _, _, _ => none
  | fuel + 1, width, u, w =>
    let old := closestIdOf w selfIdx
    let w1 := findMoreContacts selfIdx u w
    let r := mkRound selfIdx width w w1
    if Kconst ≤ activeCountOf w1 selfIdx ∨ old = closestIdOf w1 selfIdx then
      some (w1, [r])
    else
      match innerLoopT selfIdx fuel ALPHA
          ((getN w1 selfIdx).neighborList.getUncontactedContacts ALPHA) w1 with
      | none => none
      | some (w2, tr) => some (w2, r :: tr)

/-- The outer `while (true)` loop of `joinDht`, with fuel and an execution
trace: capture the old closest id, probe up to `ALPHA` uncontacted contacts,
and if the closest id is unchanged escalate to the inner loop primed with up
to `K` uncontacted contacts, otherwise iterate. -/
def outerLoopT (selfIdx : Nat) : Nat → World → Option (World × List ProbeRound)
  | 0, _ => none
  | fuel + 1, w =>
    let old := closestIdOf w selfIdx
    let u := (getN w selfIdx).neighborList.getUncontactedContacts ALPHA
    let w1 := findMoreContacts selfIdx u w
    let r := mkRound selfIdx ALPHA w w1
    if old = closestIdOf w1 selfIdx then
      match innerLoopT selfIdx fuel Kconst
          ((getN w1 selfIdx).neighborList.getUncontactedContacts Kconst) w1 with
      | none => none
      | some (w2, tr) => some (w2, r :: tr)
    else
      match outerLoopT selfIdx fuel w1 with
      | none => none
      | some (w2, tr) => some (w2, r :: tr)

/-- `joinDht(entryPoint)` translated from `DhtNode.ts`, with fuel for the
nested loops and an execution trace of the probe rounds: a self-join
(`Buffer.compare(entryPoint.getContact().id, this.ownId) == 0`) returns
immediately; otherwise the entry point's own contact is added to the bucket,
the neighbor list is seeded with `bucket.closest(this.ownId, ALPHA)`, and
the iterative lookup runs. -/
def joinDhtT (selfIdx entryIdx : Nat) (fuel : Nat) (w : World) :
    Option (World × List ProbeRound) :=
  if (getN w entryIdx).ownId = (getN w selfIdx).ownId then some (w, [])
  else
    let st := getN w selfIdx
    let entryContact : Contact := { id := (getN w entryIdx).ownId, dhtNode := entryIdx }
    let w1 := setN w selfIdx { st with bucket := st.bucket.add entryContact }
    let st1 := getN w1 selfIdx
    let closest := st1.bucket.closest st1.ownId (some ALPHA)
    let w2 := setN w1 selfIdx { st1 with neighborList := st1.neighborList.addContacts closest }
    outerLoopT selfIdx fuel w2

/-- `joinDht` without the trace. -/
def joinDht (selfIdx entryIdx : Nat) (fuel : Nat) (w : World) : Option World :=
  (joinDhtT selfIdx entryIdx fuel w).map (·.1)

/-! ## Per-partition gossip overlay (modelled from the spec)

The `Node`/`NetworkNode` gossip logic is not part of the source snapshot
(only its integration tests are), so the publish path and the
partition-scoped connection model are modelled from the specification. -/

/-- Modelled from the spec: the message identity that keys the
deduplication cache — `(streamId, partition, publisherId, msgChainId,
timestamp, sequenceNumber)`. -/
structure MsgId where
  streamId : Nat
  partition : Nat
  publisherId : Nat
  msgChainId : Nat
  timestamp : Nat
  sequenceNumber : Nat
deriving DecidableEq, Repr

/-- Modelled from the spec: the gossip-relevant state of one node — a
bounded most-recent-first dedup cache, the locally subscribed
`(streamId, partition)` pairs, and for each neighbor connection the set of
partitions it currently carries. -/
structure GossipNode where
  dedupCapacity : Nat
  dedup : List MsgId := []
  localSubs : List (Nat × Nat) := []
  neighborSubs : List (Nat × List (Nat × Nat)) := []
deriving DecidableEq, Repr

/-- Modelled from the spec: `publish(message)` — run the message through the
dedup cache; if it was seen, do nothing; if novel, record it (evicting the
oldest entries beyond the capacity), forward to every neighbor currently
subscribed to the message's `(streamId, partition)` except the one it
arrived from, and deliver to local listeners if locally subscribed.
Returns the new state, the list of neighbors forwarded to, and whether the
message was delivered locally. -/
def publishMsg (n : GossipNode) (m : MsgId) (arrivedFrom : Option Nat) :
    GossipNode × List Nat × Bool :=
  if m ∈ n.dedup then (n, [], false)
  else
    let n1 := { n with dedup := (m :: n.dedup).take n.dedupCapacity }
    let fwd := (n.neighborSubs.filter
      (fun p => (m.streamId, m.partition) ∈ p.2 ∧ some p.1 ≠ arrivedFrom)).map (·.1)
    (n1, fwd, (m.streamId, m.partition) ∈ n.localSubs)

/-- Modelled from the spec: a participant of the partition-scoped overlay —
its id and the `(streamId, partition)` pairs it subscribes to. -/
structure OverlayNode where
  nid : Nat
  subs : List (Nat × Nat) := []
deriving DecidableEq, Repr

/-- Modelled from the spec: the partitions shared by two nodes; the
underlying multiplexed connection persists while this is nonempty. -/
def sharedPartitions (a b : OverlayNode) : List (Nat × Nat) :=
  a.subs.filter (fun sp => sp ∈ b.subs)

/-- Modelled from the spec: the multiplexed connection between two nodes is
alive while at least one shared partition remains. -/
def connectionAlive (a b : OverlayNode) : Prop :=
  sharedPartitions a b ≠ []

/-- Modelled from the spec: a data message on partition `sp` published by
`a` is delivered to `b` when both are subscribed to `sp` and the multiplexed
connection between them is alive. -/
def deliversTo (a b : OverlayNode) (sp : Nat × Nat) : Prop :=
  sp ∈ a.subs ∧ sp ∈ b.subs ∧ connectionAlive a b

/-- Modelled from the spec: `unsubscribe(streamId, partition)` — the node
stops subscribing to that partition (the partition entry is removed); the
connection itself persists while another shared partition remains. -/
def unsubscribeFrom (n : OverlayNode) (sp : Nat × Nat) : OverlayNode :=
  { n with subs := n.subs.filter (fun q => q ≠ sp) }

/-! ## C6: self-join is a silent no-op -/

/-- C6: for every `DhtNode` and entry point whose contact id equals the
node's own id, `joinDht` returns immediately without an error (the result is
`some`, with an empty round trace), leaves the entire world — bucket,
neighbor list and both RPC counters included — unchanged, and composing the
call with itself returns the same unchanged state, so repeated self-joins
are idempotent. -/
theorem joinDht_self_noop (w : World) (selfIdx entryIdx fuel : Nat)
    (h : (getN w entryIdx).ownId = (getN w selfIdx).ownId) :
    joinDhtT selfIdx entryIdx fuel w = some (w, []) ∧
    joinDht selfIdx entryIdx fuel w = some w ∧
    (joinDht selfIdx entryIdx fuel w).bind (joinDht selfIdx entryIdx fuel) = some w := by
  have h1 : joinDhtT selfIdx entryIdx fuel w = some (w, []) := by
    simp [joinDhtT, h]
  have h2 : joinDht selfIdx entryIdx fuel w = some w := by
    simp [joinDht, h1]
  exact ⟨h1, h2, by simp [h2]⟩

/-- Concrete self-join world for the C6 witness: one node of id `[1]`
joining via itself. -/
def selfJoinWorld : World := fun _ => mkDhtNode [1]

/-- Witness for C6 at a concrete input. -/
theorem joinDht_self_noop_witness :
    joinDhtT 0 0 3 selfJoinWorld = some (selfJoinWorld, []) ∧
    joinDht 0 0 3 selfJoinWorld = some selfJoinWorld ∧
    (joinDht 0 0 3 selfJoinWorld).bind (joinDht 0 0 3) = some selfJoinWorld :=
  joinDht_self_noop selfJoinWorld 0 0 3 rfl

/-! ## C8: duplicate delivery is suppressed by the dedup cache -/

/-- A message already in the dedup cache is absorbed with no effect: no
state change, no forwards, no local delivery. -/
theorem publishMsg_of_mem (n : GossipNode) (m : MsgId) (src : Option Nat)
    (h : m ∈ n.dedup) : publishMsg n m src = (n, [], false) := by
  simp [publishMsg, h]

/-- C8: for every gossip-node state with a dedup cache of capacity at least
one and duplicate-free neighbor entries, and every message identity not yet
in the cache but locally subscribed, delivering the message twice (on any
two gossip paths) delivers to local listeners exactly once — the first
delivery succeeds and the second is suppressed — and forwards to each
neighbor at most once overall. -/
theorem publish_duplicate_suppressed (n : GossipNode) (m : MsgId) (src1 src2 : Option Nat)
    (hcap : 1 ≤ n.dedupCapacity)
    (hnodup : (n.neighborSubs.map (·.1)).Nodup)
    (hnew : m ∉ n.dedup)
    (hsub : (m.streamId, m.partition) ∈ n.localSubs) :
    (publishMsg n m src1).2.2 = true ∧
    (publishMsg (publishMsg n m src1).1 m src2).2.2 = false ∧
    (publishMsg (publishMsg n m src1).1 m src2).2.1 = [] ∧
    ∀ nb : Nat,
      ((publishMsg n m src1).2.1 ++ (publishMsg (publishMsg n m src1).1 m src2).2.1).count nb ≤ 1 := by
  have hmem : m ∈ ((publishMsg n m src1).1).dedup := by
    simp only [publishMsg, if_neg hnew]
    obtain ⟨cap, hcap'⟩ : ∃ cap, n.dedupCapacity = cap + 1 :=
      ⟨n.dedupCapacity - 1, by omega⟩
    simp [hcap', List.take_succ_cons]
  have hfst : (publishMsg n m src1).2.2 = true := by
    simp [publishMsg, if_neg hnew, hsub]
  have hsnd2 : publishMsg ((publishMsg n m src1).1) m src2 = (((publishMsg n m src1).1), [], false) :=
    publishMsg_of_mem _ _ _ hmem
  refine ⟨hfst, by simp [hsnd2], by simp [hsnd2], ?_⟩
  intro nb
  rw [hsnd2]
  simp only [List.append_nil]
  have hsub1 : ((publishMsg n m src1).2.1).Sublist (n.neighborSubs.map (·.1)) := by
    simp only [publishMsg, if_neg hnew]
    exact (List.filter_sublist _).map _
  have : ((publishMsg n m src1).2.1).Nodup := hsub1.nodup hnodup
  exact List.nodup_iff_count_le_one.mp this nb

/-- Concrete gossip node for the C8 witness: capacity-4 cache, locally
subscribed to `(7, 2)`, two neighbors both carrying `(7, 2)`. -/
def gossipW : GossipNode :=
  { dedupCapacity := 4
    localSubs := [(7, 2)]
    neighborSubs := [(11, [(7, 2)]), (12, [(7, 2), (7, 1)])] }

/-- Concrete message identity for the C8 witness. -/
def msgW : MsgId := ⟨7, 2, 101, 5, 1000, 0⟩

/-- Witness for C8 at a concrete input. -/
theorem publish_duplicate_suppressed_witness :
    (publishMsg gossipW msgW none).2.2 = true ∧
    (publishMsg (publishMsg gossipW msgW none).1 msgW (some 11)).2.2 = false ∧
    (publishMsg (publishMsg gossipW msgW none).1 msgW (some 11)).2.1 = [] ∧
    ∀ nb : Nat,
      ((publishMsg gossipW msgW none).2.1 ++
        (publishMsg (publishMsg gossipW msgW none).1 msgW (some 11)).2.1).count nb ≤ 1 :=
  publish_duplicate_suppressed gossipW msgW none (some 11)
    (by decide) (by decide) (by decide) (by decide)

/-! ## C9: unsubscribing one partition leaves the other partition's delivery intact -/

/-- C9: for any two overlay nodes both subscribed to `(s,1)` and `(s,2)`,
unsubscribing `b` from `(s,2)` stops delivery of `(s,2)` messages to `b`,
leaves delivery of `(s,1)` messages to `b` unchanged (still delivered), and
the multiplexed connection survives because a shared partition remains. -/
theorem unsubscribe_partition_frame (a b : OverlayNode) (s : Nat)
    (ha1 : (s, 1) ∈ a.subs) (ha2 : (s, 2) ∈ a.subs)
    (hb1 : (s, 1) ∈ b.subs) (hb2 : (s, 2) ∈ b.subs) :
    ¬ deliversTo a (unsubscribeFrom b (s, 2)) (s, 2) ∧
    (deliversTo a (unsubscribeFrom b (s, 2)) (s, 1) ↔ deliversTo a b (s, 1)) ∧
    deliversTo a (unsubscribeFrom b (s, 2)) (s, 1) ∧
    connectionAlive a (unsubscribeFrom b (s, 2)) := by
  have hb2' : (s, 2) ∉ (unsubscribeFrom b (s, 2)).subs := by
    simp [unsubscribeFrom]
  have hb1' : (s, 1) ∈ (unsubscribeFrom b (s, 2)).subs := by
    simp only [unsubscribeFrom, List.mem_filter]
    exact ⟨hb1, by simp⟩
  have halive : connectionAlive a (unsubscribeFrom b (s, 2)) := by
    intro hnil
    have : (s, 1) ∈ sharedPartitions a (unsubscribeFrom b (s, 2)) :=
      List.mem_filter.mpr ⟨ha1, by simpa using hb1'⟩
    simp [hnil] at this
  have haliveb : connectionAlive a b := by
    intro hnil
    have : (s, 1) ∈ sharedPartitions a b := List.mem_filter.mpr ⟨ha1, by simpa using hb1⟩
    simp [hnil] at this
  refine ⟨fun hdel => hb2' hdel.2.1, ?_, ⟨ha1, hb1', halive⟩, halive⟩
  exact ⟨fun _ => ⟨ha1, hb1, haliveb⟩, fun _ => ⟨ha1, hb1', halive⟩⟩

/-- Concrete overlay nodes for the C9 witness. -/
def overlayA : OverlayNode := { nid := 0, subs := [(5, 1), (5, 2)] }

/-- Concrete overlay node B for the C9 witness. -/
def overlayB : OverlayNode := { nid := 1, subs := [(5, 1), (5, 2), (9, 0)] }

/-- Witness for C9 at a concrete input. -/
theorem unsubscribe_partition_frame_witness :
    ¬ deliversTo overlayA (unsubscribeFrom overlayB (5, 2)) (5, 2) ∧
    (deliversTo overlayA (unsubscribeFrom overlayB (5, 2)) (5, 1) ↔
      deliversTo overlayA overlayB (5, 1)) ∧
    deliversTo overlayA (unsubscribeFrom overlayB (5, 2)) (5, 1) ∧
    connectionAlive overlayA (unsubscribeFrom overlayB (5, 2)) :=
  unsubscribe_partition_frame overlayA overlayB 5
    (by decide) (by decide) (by decide) (by decide)

/-! ## KBucket lemmas -/

/-- With no count bound and enough fuel, the collection loop of `closest`
gathers exactly the contacts of the stacked subtrees (as a multiset: the
traversal order prioritises the target side). -/
theorem KBTree.collectGo_none_perm (target : NodeId) :
    ∀ fuel stack bi acc, (stack.map KBTree.weight).sum ≤ fuel →
      (KBTree.collectGo target none fuel stack bi acc).Perm
        (acc ++ (stack.map KBTree.allContacts).flatten) := by
  intro fuel
  induction fuel with
  | zero =>
    intro stack bi acc h
    match stack with
    | [] => simp [KBTree.collectGo]
    | t :: rest =>
      exfalso
      have : 1 ≤ KBTree.weight t := by cases t <;> simp [KBTree.weight] <;> omega
      simp only [List.map_cons, List.sum_cons] at h
      omega
  | succ fuel ih =>
    intro stack bi acc h
    match stack with
    | [] => simp [KBTree.collectGo]
    | t :: rest =>
      simp only [List.map_cons, List.sum_cons] at h
      match t with
      | .leaf cs ds =>
        have hw : (rest.map KBTree.weight).sum ≤ fuel := by
          simp [KBTree.weight] at h; omega
        have := ih rest bi (acc ++ cs) hw
        simp only [KBTree.collectGo, Option.map_none', Option.getD_none, if_neg Bool.false_ne_true]
        refine this.trans ?_
        simp [KBTree.allContacts, List.append_assoc]
      | .node l r =>
        have hw : ∀ s : List KBTree, (s.map KBTree.weight).sum = KBTree.weight l + KBTree.weight r + (rest.map KBTree.weight).sum → (s.map KBTree.weight).sum ≤ fuel := by
          intro s hs; simp [KBTree.weight] at h; omega
        simp only [KBTree.collectGo, Option.map_none', Option.getD_none, if_neg Bool.false_ne_true]
        by_cases hbit : idBit target bi
        · simp only [hbit, if_true]
          have := ih (r :: l :: rest) (bi + 1) acc (hw _ (by simp; omega))
          refine this.trans ?_
          refine List.Perm.append_left acc ?_
          simp only [List.map_cons, List.flatten_cons, KBTree.allContacts, List.append_assoc]
          exact List.perm_append_comm_assoc _ _ _
        · simp only [hbit, if_false]
          have := ih (l :: r :: rest) (bi + 1) acc (hw _ (by simp; omega))
          refine this.trans ?_
          simp [KBTree.allContacts, List.append_assoc]


/-- `closest` with no count bound returns a permutation of all stored
contacts. -/
theorem KBucket.closest_none_perm (b : KBucket) (target : NodeId) :
    (b.closest target none).Perm b.root.allContacts := by
  have h1 : (KBTree.collectGo target none (b.root.weight + 1) [b.root] 0 []).Perm
      b.root.allContacts := by
    have := KBTree.collectGo_none_perm target (b.root.weight + 1) [b.root] 0 []
      (by simp)
    simpa using this
  exact (List.perm_insertionSort _ _).trans h1

/-- `closest` with no count bound returns exactly `count` contacts. -/
theorem KBucket.closest_none_length (b : KBucket) (target : NodeId) :
    (b.closest target none).length = b.count :=
  (KBucket.closest_none_perm b target).length_eq

/-- `closest` returns its contacts sorted ascending by XOR distance to the
target. -/
theorem KBucket.closest_none_sorted (b : KBucket) (target : NodeId) :
    List.Sorted (fun a c : Contact => kdist a.id target ≤ kdist c.id target)
      (b.closest target none) := by
  haveI : IsTotal Contact (fun a c : Contact => kdist a.id target ≤ kdist c.id target) :=
    ⟨fun a c => Nat.le_total _ _⟩
  haveI : IsTrans Contact (fun a c : Contact => kdist a.id target ≤ kdist c.id target) :=
    ⟨fun _ _ _ => Nat.le_trans⟩
  exact List.sorted_insertionSort _ _

/-- Any contact present after an `insertC` was already present or is the
inserted one (splits redistribute, never invent, contacts). -/
theorem KBTree.mem_insertC (k : Nat) (localId : NodeId) (c : Contact) :
    ∀ fuel bi t x, x ∈ (KBTree.insertC k localId c fuel bi t).allContacts →
      x ∈ t.allContacts ∨ x = c := by
  intro fuel
  induction fuel with
  | zero => intro bi t x hx; exact Or.inl hx
  | succ fuel ih =>
    intro bi t x hx
    match t with
    | .node l r =>
      simp only [KBTree.insertC] at hx
      by_cases hbit : idBit c.id bi
      · simp only [hbit, if_true, KBTree.allContacts, List.mem_append] at hx
        rcases hx with hx | hx
        · exact Or.inl (by simp [KBTree.allContacts, hx])
        · rcases ih (bi + 1) r x hx with hx | hx
          · exact Or.inl (by simp [KBTree.allContacts, hx])
          · exact Or.inr hx
      · simp only [hbit, if_false, KBTree.allContacts, List.mem_append] at hx
        rcases hx with hx | hx
        · rcases ih (bi + 1) l x hx with hx | hx
          · exact Or.inl (by simp [KBTree.allContacts, hx])
          · exact Or.inr hx
        · exact Or.inl (by simp [KBTree.allContacts, hx])
    | .leaf cs ds =>
      simp only [KBTree.insertC] at hx
      by_cases hdup : cs.any (fun x => x.id = c.id)
      · simp only [hdup, if_true, KBTree.allContacts, List.mem_append] at hx
        rcases hx with hx | hx
        · exact Or.inl ((List.eraseP_sublist cs).subset hx)
        · exact Or.inr (by simpa using hx)
      · simp only [hdup, if_false] at hx
        by_cases hlen : cs.length < k
        · simp only [hlen, if_true, KBTree.allContacts, List.mem_append] at hx
          rcases hx with hx | hx
          · exact Or.inl hx
          · exact Or.inr (by simpa using hx)
        · simp only [hlen, if_false] at hx
          by_cases hds : ds
          · simp only [hds, if_true, KBTree.allContacts] at hx
            exact Or.inl hx
          · simp only [hds, if_false] at hx
            by_cases hlb : idBit localId bi
            · simp only [hlb, if_true] at hx
              rcases ih bi _ x hx with hx | hx
              · simp only [KBTree.allContacts, List.mem_append, List.mem_filter] at hx
                rcases hx with ⟨hx, _⟩ | ⟨hx, _⟩ <;> exact Or.inl hx
              · exact Or.inr hx
            · simp only [hlb, if_false] at hx
              rcases ih bi _ x hx with hx | hx
              · simp only [KBTree.allContacts, List.mem_append, List.mem_filter] at hx
                rcases hx with ⟨hx, _⟩ | ⟨hx, _⟩ <;> exact Or.inl hx
              · exact Or.inr hx

/-- Any contact present after a `KBucket.add` was already present or is the
added one. -/
theorem KBucket.mem_add (b : KBucket) (c : Contact) (x : Contact)
    (hx : x ∈ (b.add c).root.allContacts) : x ∈ b.root.allContacts ∨ x = c :=
  KBTree.mem_insertC _ _ c _ 0 b.root x hx

/-- If no stored contact has the searched id, `get` misses. -/
theorem KBTree.getC_eq_none (i : NodeId) :
    ∀ bi t, (∀ x ∈ KBTree.allContacts t, x.id ≠ i) → KBTree.getC bi t i = none := by
  intro bi t
  induction t generalizing bi with
  | leaf cs ds =>
    intro h
    simp only [KBTree.getC, List.find?_eq_none]
    intro x hx
    simpa using h x hx
  | node l r ihl ihr =>
    intro h
    simp only [KBTree.allContacts, List.mem_append] at h
    simp only [KBTree.getC]
    by_cases hbit : idBit i bi
    · simp only [hbit, if_true]
      exact ihr _ (fun x hx => h x (Or.inr hx))
    · simp only [hbit, if_false]
      exact ihl _ (fun x hx => h x (Or.inl hx))

/-! ## SortedContactList membership lemmas -/

/-- Membership across the sorted insertion: exactly the old entries plus the
new one. -/
theorem mem_insertFar (own : NodeId) (e : SCLEntry) :
    ∀ ys x, x ∈ insertFar own e ys ↔ x ∈ ys ∨ x = e := by
  intro ys
  induction ys with
  | nil => intro x; simp [insertFar]
  | cons y ys ih =>
    intro x
    simp only [insertFar]
    by_cases hle : kdist own y.contact.id ≤ kdist own e.contact.id
    · simp only [hle, if_true, List.mem_cons, ih]
      tauto
    · simp only [hle, if_false, List.mem_cons]
      tauto

/-- Every id present after `addContact` was present before or is the added
contact's id. -/
theorem SortedContactList.mem_ids_addContact (l : SortedContactList) (c : Contact)
    (i : NodeId) (hi : i ∈ ((l.addContact c).contacts.map (·.contact.id))) :
    i ∈ (l.contacts.map (·.contact.id)) ∨ i = c.id := by
  simp only [SortedContactList.addContact] at hi
  by_cases hdup : l.contacts.any (fun e => e.contact.id = c.id)
  · simp only [hdup, if_true] at hi
    exact Or.inl hi
  · simp only [hdup, if_false] at hi
    simp only [List.mem_map] at hi
    obtain ⟨x, hx, hxi⟩ := hi
    have hx' : x ∈ insertFar l.ownId { contact := c } l.contacts := by
      by_cases hK : Kconst < (insertFar l.ownId { contact := c } l.contacts).length
      · simp only [hK, if_true] at hx
        exact (List.dropLast_sublist _).subset hx
      · simp only [hK, if_false] at hx
        exact hx
    rcases (mem_insertFar l.ownId _ l.contacts x).mp hx' with hx'' | hx''
    · exact Or.inl (List.mem_map.mpr ⟨x, hx'', hxi⟩)
    · subst hx''
      exact Or.inr hxi.symm

/-! ## C4: what getClosestNodesTo returns -/

/-- A responder whose bucket holds nine contacts, built through the public
RPC handler alone: nine searches for the fresh ids `[1]` … `[9]` from the
node at index 1 each record a contact, and the k-bucket tree splits past the
per-leaf bound of `K = 8` (the leaf on the own-id side may split). -/
def overfullNode : NodeState :=
  (List.range 9).foldl (fun st i => (getClosestNodesTo st [i + 1] 1).2) (mkDhtNode [0])

/-- Counterexample to C4: on a bucket holding nine contacts, a further
`getClosestNodesTo` call returns all nine of them — more than `K = 8` — so
the returned list is not "the bucket's K closest contacts" and the "at most
K contacts are returned" part of the claim is false. -/
theorem getClosestNodesTo_returns_more_than_K :
    overfullNode.bucket.count = 9 ∧
    ((getClosestNodesTo overfullNode [10] 1).1).length = 9 ∧
    ¬ (((getClosestNodesTo overfullNode [10] 1).1).length ≤ Kconst) := by
  refine ⟨by decide, by decide, by decide⟩

/-- C4 (amended): `getClosestNodesTo(targetId, caller)` increments the
incoming-RPC counter by exactly one and returns all of the bucket's
contacts — the bucket's `closest` is called without a count argument — as a
permutation of the stored contacts, sorted ascending by XOR distance to
`targetId`; the number returned equals the bucket's total size, which can
exceed `K`. -/
theorem getClosestNodesTo_amended (st : NodeState) (id : NodeId) (caller : Nat) :
    (getClosestNodesTo st id caller).2.numberOfIncomingRpcCalls =
      st.numberOfIncomingRpcCalls + 1 ∧
    ((getClosestNodesTo st id caller).1).Perm st.bucket.root.allContacts ∧
    ((getClosestNodesTo st id caller).1).length = st.bucket.count ∧
    List.Sorted (fun a c : Contact => kdist a.id id ≤ kdist c.id id)
      (getClosestNodesTo st id caller).1 := by
  refine ⟨?_, ?_, ?_, ?_⟩
  · simp only [getClosestNodesTo]
    split <;> rfl
  · simpa [getClosestNodesTo] using KBucket.closest_none_perm st.bucket id
  · simpa [getClosestNodesTo] using KBucket.closest_none_length st.bucket id
  · simpa [getClosestNodesTo] using KBucket.closest_none_sorted st.bucket id

/-! ## C5: the learning side effect is keyed by the searched id, not the caller -/

/-- A two-node world for the C5 counterexample: the responder at index 0
(own id `[0]`) and the caller at index 1 (own id `[5]`). -/
def respWorld : World :=
  fun i => if i = 0 then mkDhtNode [0] else mkDhtNode [5]

/-- Counterexample to C5: after the caller (own id `[5]`, index 1) searches
the responder for its own id, a contact with id `[5]` is in the responder's
bucket, so the caller is known to the responder; yet a second call from the
same caller searching the fresh id `[7]` grows the bucket from one to two
contacts — the claim's "if the caller is already known, bucket and neighbor
list are unchanged" is false, because the code keys its known-test and the
recorded contact on the searched id, not on the caller. -/
theorem getClosestNodesTo_caller_known_cex :
    ((getClosestNodesTo (respWorld 0) ((respWorld 1).ownId) 1).2.bucket.get
      ((respWorld 1).ownId)).isSome = true ∧
    (getClosestNodesTo (respWorld 0) ((respWorld 1).ownId) 1).2.bucket.count = 1 ∧
    (getClosestNodesTo
      (getClosestNodesTo (respWorld 0) ((respWorld 1).ownId) 1).2 [7] 1).2.bucket.count = 2 := by
  refine ⟨by decide, by decide, by decide⟩

/-- C5 (amended): the responder's learning side effect is keyed by the
searched-for id: when no contact with the searched id is in the bucket, the
contact `(searched id, caller)` is added to the bucket and `addContact`-ed
to the neighbor list; when the searched id is present, bucket and neighbor
list are unchanged.  Consequently every contact in the bucket after the call
was there before or is the `(searched id, caller)` contact, and every
neighbor-list id after the call was there before or is the searched id. -/
theorem getClosestNodesTo_amended_side_effect (st : NodeState) (id : NodeId) (caller : Nat) :
    (getClosestNodesTo st id caller).2.bucket =
      (if (st.bucket.get id).isSome then st.bucket
       else st.bucket.add { id := id, dhtNode := caller }) ∧
    (getClosestNodesTo st id caller).2.neighborList =
      (if (st.bucket.get id).isSome then st.neighborList
       else st.neighborList.addContact { id := id, dhtNode := caller }) ∧
    (∀ x, x ∈ (getClosestNodesTo st id caller).2.bucket.root.allContacts →
      x ∈ st.bucket.root.allContacts ∨ x = { id := id, dhtNode := caller }) ∧
    (∀ i2, i2 ∈ ((getClosestNodesTo st id caller).2.neighborList.contacts.map (·.contact.id)) →
      i2 ∈ (st.neighborList.contacts.map (·.contact.id)) ∨ i2 = id) := by
  refine ⟨?_, ?_, ?_, ?_⟩
  · simp only [getClosestNodesTo]
    split <;> rfl
  · simp only [getClosestNodesTo]
    split <;> rfl
  · intro x hx
    simp only [getClosestNodesTo] at hx
    by_cases hget : (st.bucket.get id).isSome
    · simp only [hget, if_true] at hx
      exact Or.inl hx
    · simp only [hget, if_false] at hx
      exact KBucket.mem_add st.bucket _ x hx
  · intro i2 hi2
    simp only [getClosestNodesTo] at hi2
    by_cases hget : (st.bucket.get id).isSome
    · simp only [hget, if_true] at hi2
      exact Or.inl hi2
    · simp only [hget, if_false] at hi2
      exact SortedContactList.mem_ids_addContact st.neighborList _ i2 hi2

/-- Witness for the amended C5 at a concrete input, exercising both the
searched-id-absent branch and the membership consequences. -/
theorem getClosestNodesTo_amended_side_effect_witness :
    ((getClosestNodesTo (mkDhtNode [0]) [5] 1).2.bucket =
      (if ((mkDhtNode [0]).bucket.get [5]).isSome then (mkDhtNode [0]).bucket
       else (mkDhtNode [0]).bucket.add { id := [5], dhtNode := 1 })) ∧
    ((⟨[5], 1⟩ : Contact) ∈ (getClosestNodesTo (mkDhtNode [0]) [5] 1).2.bucket.root.allContacts) ∧
    ((⟨[5], 1⟩ : Contact) ∈ (mkDhtNode [0]).bucket.root.allContacts ∨
      (⟨[5], 1⟩ : Contact) = { id := [5], dhtNode := 1 }) := by
  refine ⟨(getClosestNodesTo_amended_side_effect (mkDhtNode [0]) [5] 1).1, by decide, ?_⟩
  exact (getClosestNodesTo_amended_side_effect (mkDhtNode [0]) [5] 1).2.2.1 _ (by decide)

/-! ## C10: the return value predates the recorded contact -/

/-- C10: when no contact with the searched id is in the responder's bucket,
the returned list is computed from the bucket as it was before the caller's
contact is recorded: every returned contact was already stored, the freshly
created contact never appears in the same call's return value, and the
recorded contact is keyed by the searched-for id (paired with the caller
reference), not by the caller's own id. -/
theorem getClosestNodesTo_ret_predates_record (st : NodeState) (id : NodeId) (caller : Nat)
    (hid : id ∉ st.bucket.root.allContacts.map (·.id)) :
    (∀ c, c ∈ (getClosestNodesTo st id caller).1 → c ∈ st.bucket.root.allContacts) ∧
    ({ id := id, dhtNode := caller } : Contact) ∉ (getClosestNodesTo st id caller).1 ∧
    (getClosestNodesTo st id caller).2.bucket = st.bucket.add { id := id, dhtNode := caller } ∧
    (getClosestNodesTo st id caller).2.neighborList =
      st.neighborList.addContact { id := id, dhtNode := caller } := by
  have hid' : ∀ x ∈ st.bucket.root.allContacts, x.id ≠ id := by
    intro x hx he
    exact hid (List.mem_map.mpr ⟨x, hx, he⟩)
  have hget : st.bucket.get id = none :=
    KBTree.getC_eq_none id 0 st.bucket.root hid'
  have hret : ∀ c, c ∈ (getClosestNodesTo st id caller).1 → c ∈ st.bucket.root.allContacts := by
    intro c hc
    simp only [getClosestNodesTo] at hc
    exact (KBucket.closest_none_perm st.bucket id).subset hc
  refine ⟨hret, ?_, ?_, ?_⟩
  · intro hmem
    exact hid' _ (hret _ hmem) rfl
  · simp only [getClosestNodesTo, hget]
    rfl
  · simp only [getClosestNodesTo, hget]
    rfl

/-- Witness for C10 at a concrete input: responder with one stored contact
`[3]`, searched id `[4]` absent from the bucket. -/
theorem getClosestNodesTo_ret_predates_record_witness :
    (∀ c, c ∈ (getClosestNodesTo (getClosestNodesTo (mkDhtNode [0]) [3] 2).2 [4] 7).1 →
      c ∈ (getClosestNodesTo (mkDhtNode [0]) [3] 2).2.bucket.root.allContacts) ∧
    ({ id := [4], dhtNode := 7 } : Contact) ∉
      (getClosestNodesTo (getClosestNodesTo (mkDhtNode [0]) [3] 2).2 [4] 7).1 ∧
    (getClosestNodesTo (getClosestNodesTo (mkDhtNode [0]) [3] 2).2 [4] 7).2.bucket =
      (getClosestNodesTo (mkDhtNode [0]) [3] 2).2.bucket.add { id := [4], dhtNode := 7 } ∧
    (getClosestNodesTo (getClosestNodesTo (mkDhtNode [0]) [3] 2).2 [4] 7).2.neighborList =
      (getClosestNodesTo (mkDhtNode [0]) [3] 2).2.neighborList.addContact
        { id := [4], dhtNode := 7 } :=
  getClosestNodesTo_ret_predates_record
    (getClosestNodesTo (mkDhtNode [0]) [3] 2).2 [4] 7 (by decide)

/-! ## C7: SortedContactList invariants -/

/-- The sorted insertion is, as a multiset, just a cons. -/
theorem insertFar_perm (own : NodeId) (e : SCLEntry) :
    ∀ ys, (insertFar own e ys).Perm (e :: ys) := by
  intro ys
  induction ys with
  | nil => simp [insertFar]
  | cons y ys ih =>
    simp only [insertFar]
    by_cases hle : kdist own y.contact.id ≤ kdist own e.contact.id
    · simp only [hle, if_true]
      exact (ih.cons y).trans (List.Perm.swap e y ys)
    · simp only [hle, if_false]
      exact List.Perm.refl _

/-- The sorted insertion never yields an empty list. -/
theorem insertFar_ne_nil (own : NodeId) (e : SCLEntry) (ys : List SCLEntry) :
    insertFar own e ys ≠ [] := by
  intro h
  have := (insertFar_perm own e ys).length_eq
  simp [h] at this

/-- The sorted insertion preserves ascending-distance sortedness. -/
theorem pairwise_insertFar (own : NodeId) (e : SCLEntry) :
    ∀ ys, ys.Pairwise (fun a b => kdist own a.contact.id ≤ kdist own b.contact.id) →
      (insertFar own e ys).Pairwise
        (fun a b => kdist own a.contact.id ≤ kdist own b.contact.id) := by
  intro ys
  induction ys with
  | nil => intro _; simp [insertFar]
  | cons y ys ih =>
    intro h
    rw [List.pairwise_cons] at h
    simp only [insertFar]
    by_cases hle : kdist own y.contact.id ≤ kdist own e.contact.id
    · simp only [hle, if_true]
      rw [List.pairwise_cons]
      refine ⟨?_, ih h.2⟩
      intro z hz
      have hz2 := (insertFar_perm own e ys).mem_iff.mp hz
      rcases List.mem_cons.mp hz2 with hz3 | hz3
      · subst hz3; exact hle
      · exact h.1 z hz3
    · simp only [hle, if_false]
      rw [List.pairwise_cons]
      refine ⟨?_, List.pairwise_cons.mpr h⟩
      intro z hz
      rcases List.mem_cons.mp hz with hz | hz
      · subst hz; omega
      · exact Nat.le_trans (by omega) (h.1 z hz)

/-- When the inserted entry is strictly closer than the last entry, the last
entry of the list is unchanged by the insertion. -/
theorem getLast_insertFar (own : NodeId) (e : SCLEntry) :
    ∀ ys flast, ys.getLast? = some flast →
      kdist own e.contact.id < kdist own flast.contact.id →
      (insertFar own e ys).getLast? = some flast := by
  intro ys
  induction ys with
  | nil => intro flast h _; simp at h
  | cons y ys ih =>
    intro flast h hlt
    simp only [insertFar]
    by_cases hle : kdist own y.contact.id ≤ kdist own e.contact.id
    · simp only [hle, if_true]
      cases ys with
      | nil =>
        simp only [List.getLast?_singleton, Option.some.injEq] at h
        subst h
        omega
      | cons z zs =>
        have h' : (z :: zs).getLast? = some flast := by
          rw [List.getLast?_cons_cons] at h; exact h
        have hrec := ih flast h' hlt
        obtain ⟨w, ws, hws⟩ := List.exists_cons_of_ne_nil (insertFar_ne_nil own e (z :: zs))
        rw [hws]
        rw [List.getLast?_cons_cons]
        rw [← hws]
        exact hrec
    · simp only [hle, if_false]
      rw [List.getLast?_cons_cons]
      exact h

/-- The operations of `SortedContactList` that mutate it, as performed by
`DhtNode.ts`. -/
inductive SCLOp where
  | addC (c : Contact)
  | addCs (cs : List Contact)
  | setCon (i : NodeId)
  | setAct (i : NodeId)

/-- Apply one operation. -/
def SCLOp.apply (l : SortedContactList) : SCLOp → SortedContactList
  | .addC c => l.addContact c
  | .addCs cs => l.addContacts cs
  | .setCon i => l.setContacted i
  | .setAct i => l.setActive i

/-- Apply a sequence of operations starting from the empty list a `DhtNode`
constructs. -/
def applySCLOps (l : SortedContactList) (ops : List SCLOp) : SortedContactList :=
  ops.foldl SCLOp.apply l

/-- The C7 invariant: at most `K` entries, sorted ascending by XOR distance
to the owner, and no duplicate ids. -/
def SCLInv (l : SortedContactList) : Prop :=
  l.contacts.length ≤ Kconst ∧
  l.contacts.Pairwise
    (fun a b => kdist l.ownId a.contact.id ≤ kdist l.ownId b.contact.id) ∧
  (l.contacts.map (·.contact.id)).Nodup

/-- `addContact` preserves the invariant. -/
theorem SCLInv_addContact (l : SortedContactList) (c : Contact) (h : SCLInv l) :
    SCLInv (l.addContact c) := by
  obtain ⟨hlen, hsort, hnodup⟩ := h
  by_cases hdup : l.contacts.any (fun e => e.contact.id = c.id)
  · simp only [SortedContactList.addContact, if_pos hdup]
    exact ⟨hlen, hsort, hnodup⟩
  · have hper := insertFar_perm l.ownId { contact := c } l.contacts
    have hlen' : (insertFar l.ownId { contact := c } l.contacts).length = l.contacts.length + 1 := by
      simpa using hper.length_eq
    have hsort' := pairwise_insertFar l.ownId { contact := c } l.contacts hsort
    have hcnot : c.id ∉ l.contacts.map (·.contact.id) := by
      intro hc
      rw [List.mem_map] at hc
      obtain ⟨x, hx, hxc⟩ := hc
      exact hdup (List.any_eq_true.mpr ⟨x, hx, by simp [hxc]⟩)
    have hnodup' : ((insertFar l.ownId { contact := c } l.contacts).map (·.contact.id)).Nodup := by
      have hmp : ((insertFar l.ownId { contact := c } l.contacts).map (·.contact.id)).Perm
          (c.id :: l.contacts.map (·.contact.id)) := by
        simpa using hper.map (·.contact.id)
      exact hmp.nodup_iff.mpr (List.nodup_cons.mpr ⟨hcnot, hnodup⟩)
    simp only [SortedContactList.addContact, if_neg hdup]
    by_cases hK : Kconst < (insertFar l.ownId { contact := c } l.contacts).length
    · simp only [if_pos hK]
      refine ⟨?_, ?_, ?_⟩
      · simp only [List.length_dropLast, hlen']
        omega
      · exact hsort'.sublist (List.dropLast_sublist _)
      · exact hnodup'.sublist ((List.dropLast_sublist _).map _)
    · simp only [if_neg hK]
      refine ⟨?_, hsort', hnodup'⟩
      show (insertFar l.ownId { contact := c } l.contacts).length ≤ Kconst
      omega

/-- `setContacted` only toggles a flag: the contact sequence is unchanged. -/
theorem contacts_map_setContacted (l : SortedContactList) (i : NodeId) :
    (l.setContacted i).contacts.map (·.contact) = l.contacts.map (·.contact) := by
  simp only [SortedContactList.setContacted, List.map_map]
  congr 1
  funext e
  by_cases he : e.contact.id = i <;> simp [he]

/-- `setActive` only toggles a flag: the contact sequence is unchanged. -/
theorem contacts_map_setActive (l : SortedContactList) (i : NodeId) :
    (l.setActive i).contacts.map (·.contact) = l.contacts.map (·.contact) := by
  simp only [SortedContactList.setActive, List.map_map]
  congr 1
  funext e
  by_cases he : e.contact.id = i <;> simp [he]

/-- `addContacts` preserves the invariant. -/
theorem SCLInv_addContacts (l : SortedContactList) (cs : List Contact) (h : SCLInv l) :
    SCLInv (l.addContacts cs) := by
  induction cs generalizing l with
  | nil => exact h
  | cons c cs ih =>
    have hstep := SCLInv_addContact l c h
    have := ih (l.addContact c) hstep
    simpa [SortedContactList.addContacts] using this

/-- The invariant only depends on the owner id and the contact sequence, not
on the flags. -/
theorem SCLInv_congr (l l2 : SortedContactList) (hown : l2.ownId = l.ownId)
    (hmap : l2.contacts.map (·.contact) = l.contacts.map (·.contact))
    (h : SCLInv l) : SCLInv l2 := by
  obtain ⟨hlen, hsort, hnodup⟩ := h
  refine ⟨?_, ?_, ?_⟩
  · have hl : l2.contacts.length = l.contacts.length := by
      have := congrArg List.length hmap
      simpa using this
    omega
  · have h1 : (l2.contacts.map (·.contact)).Pairwise
        (fun a b : Contact => kdist l.ownId a.id ≤ kdist l.ownId b.id) := by
      rw [hmap, List.pairwise_map]
      exact hsort
    rw [List.pairwise_map] at h1
    rw [hown]
    exact h1
  · have hids : (l2.contacts.map (·.contact.id)) = (l.contacts.map (·.contact.id)) := by
      have h2 := congrArg (List.map Contact.id) hmap
      simpa [List.map_map, Function.comp] using h2
    rw [hids]
    exact hnodup

/-- Every operation preserves the invariant. -/
theorem SCLInv_apply (l : SortedContactList) (op : SCLOp) (h : SCLInv l) :
    SCLInv (SCLOp.apply l op) := by
  match op with
  | .addC c => exact SCLInv_addContact l c h
  | .addCs cs => exact SCLInv_addContacts l cs h
  | .setCon i =>
    exact SCLInv_congr l (l.setContacted i) rfl (contacts_map_setContacted l i) h
  | .setAct i =>
    exact SCLInv_congr l (l.setActive i) rfl (contacts_map_setActive l i) h

/-- A sequence of operations starting from the empty list preserves the
invariant. -/
theorem SCLInv_applySCLOps (l : SortedContactList) (ops : List SCLOp) (h : SCLInv l) :
    SCLInv (applySCLOps l ops) := by
  induction ops generalizing l with
  | nil => exact h
  | cons op ops ih =>
    have := ih (SCLOp.apply l op) (SCLInv_apply l op h)
    simpa [applySCLOps] using this

/-- When the list is full and the new contact is strictly closer than the
farthest entry, `addContact` inserts the new id, evicts the farthest id and
keeps the list at `K` entries. -/
theorem addContact_evicts_farthest (l : SortedContactList) (c : Contact) (flast : SCLEntry)
    (h : SCLInv l) (hfull : l.contacts.length = Kconst)
    (habs : c.id ∉ l.contacts.map (·.contact.id))
    (hlast : l.contacts.getLast? = some flast)
    (hcloser : kdist l.ownId c.id < kdist l.ownId flast.contact.id) :
    c.id ∈ ((l.addContact c).contacts.map (·.contact.id)) ∧
    flast.contact.id ∉ ((l.addContact c).contacts.map (·.contact.id)) ∧
    (l.addContact c).contacts.length = Kconst := by
  obtain ⟨hlen, hsort, hnodup⟩ := h
  have hdup : ¬ l.contacts.any (fun e => e.contact.id = c.id) := by
    intro hx
    rcases List.any_eq_true.mp hx with ⟨x, hx1, hx2⟩
    exact habs (List.mem_map.mpr ⟨x, hx1, by simpa using hx2.symm⟩)
  have hflastmem : flast ∈ l.contacts := by
    have hne : l.contacts ≠ [] := by
      intro hnil; rw [hnil] at hfull; simp [Kconst] at hfull
    have := List.getLast?_eq_getLast l.contacts hne
    rw [this] at hlast
    have := Option.some.inj hlast
    rw [← this]
    exact List.getLast_mem hne
  have hper := insertFar_perm l.ownId { contact := c } l.contacts
  have hlen' : (insertFar l.ownId { contact := c } l.contacts).length = Kconst + 1 := by
    have := hper.length_eq
    simp only [List.length_cons, hfull] at this
    omega
  have hK : Kconst < (insertFar l.ownId { contact := c } l.contacts).length := by omega
  have hres : (l.addContact c).contacts =
      (insertFar l.ownId { contact := c } l.contacts).dropLast := by
    simp only [SortedContactList.addContact, if_neg hdup, if_pos hK]
  have hne2 : insertFar l.ownId { contact := c } l.contacts ≠ [] :=
    insertFar_ne_nil l.ownId _ l.contacts
  have hlast2 : (insertFar l.ownId { contact := c } l.contacts).getLast? = some flast :=
    getLast_insertFar l.ownId { contact := c } l.contacts flast hlast hcloser
  have hglast : (insertFar l.ownId { contact := c } l.contacts).getLast hne2 = flast := by
    have := List.getLast?_eq_getLast (insertFar l.ownId { contact := c } l.contacts) hne2
    rw [this] at hlast2
    exact Option.some.inj hlast2
  have hsplit : (insertFar l.ownId { contact := c } l.contacts).dropLast ++ [flast] =
      insertFar l.ownId { contact := c } l.contacts := by
    rw [← hglast]
    exact List.dropLast_concat_getLast hne2
  have hnodup' : ((insertFar l.ownId { contact := c } l.contacts).map (·.contact.id)).Nodup := by
    have hmp : ((insertFar l.ownId { contact := c } l.contacts).map (·.contact.id)).Perm
        (c.id :: l.contacts.map (·.contact.id)) := by
      simpa using hper.map (·.contact.id)
    exact hmp.nodup_iff.mpr (List.nodup_cons.mpr ⟨habs, hnodup⟩)
  have hidsplit : ((insertFar l.ownId { contact := c } l.contacts).dropLast.map (·.contact.id))
      ++ [flast.contact.id] = ((insertFar l.ownId { contact := c } l.contacts).map (·.contact.id)) := by
    rw [← hsplit]
    simp
  refine ⟨?_, ?_, ?_⟩
  · have hcmem : ({ contact := c } : SCLEntry) ∈ insertFar l.ownId { contact := c } l.contacts :=
      (mem_insertFar l.ownId _ l.contacts _).mpr (Or.inr rfl)
    have : ({ contact := c } : SCLEntry) ∈
        (insertFar l.ownId { contact := c } l.contacts).dropLast ++ [flast] := by
      rw [hsplit]; exact hcmem
    rcases List.mem_append.mp this with hm | hm
    · rw [hres]
      exact List.mem_map.mpr ⟨_, hm, rfl⟩
    · exfalso
      have heq : ({ contact := c } : SCLEntry) = flast := by simpa using hm
      have : c.id ∈ l.contacts.map (·.contact.id) :=
        List.mem_map.mpr ⟨flast, hflastmem, by rw [← heq]⟩
      exact habs this
  · rw [hres]
    intro hmem
    rw [← hidsplit] at hnodup'
    rcases List.nodup_append.mp hnodup' with ⟨_, _, hdisj⟩
    exact hdisj hmem (by simp)
  · rw [hres, List.length_dropLast, hlen']
    omega

/-- C7: for every sequence of `SortedContactList` operations (`addContact`,
`addContacts`, `setContacted`, `setActive`) applied from the empty list a
`DhtNode` constructs, the list never exceeds `K` entries, stays sorted
ascending by XOR distance to the owner id and keeps its ids duplicate-free
after every mutation; adding an id already present is not a re-insertion
(the list is left as is); and on a full list a strictly closer new contact
is inserted while the farthest entry is evicted, keeping `K` entries. -/
theorem sortedContactList_invariants (own : NodeId) (ops : List SCLOp) :
    SCLInv (applySCLOps { ownId := own } ops) ∧
    (∀ (l : SortedContactList) (c : Contact),
      c.id ∈ l.contacts.map (·.contact.id) → l.addContact c = l) ∧
    (∀ (l : SortedContactList) (c : Contact) (flast : SCLEntry), SCLInv l →
      l.contacts.length = Kconst → c.id ∉ l.contacts.map (·.contact.id) →
      l.contacts.getLast? = some flast →
      kdist l.ownId c.id < kdist l.ownId flast.contact.id →
      c.id ∈ ((l.addContact c).contacts.map (·.contact.id)) ∧
      flast.contact.id ∉ ((l.addContact c).contacts.map (·.contact.id)) ∧
      (l.addContact c).contacts.length = Kconst) := by
  refine ⟨?_, ?_, ?_⟩
  · refine SCLInv_applySCLOps _ ops ?_
    exact ⟨by simp [Kconst], by simp, by simp⟩
  · intro l c hmem
    have hdup : l.contacts.any (fun e => e.contact.id = c.id) := by
      rcases List.mem_map.mp hmem with ⟨x, hx, hxc⟩
      exact List.any_eq_true.mpr ⟨x, hx, by simpa using hxc⟩
    simp only [SortedContactList.addContact, if_pos hdup]
  · intro l c flast h hfull habs hlast hcloser
    exact addContact_evicts_farthest l c flast h hfull habs hlast hcloser

/-- A concrete full list for the C7 witness: eight contacts at distances
10 … 17 from the owner `[0]`. -/
def fullSCL : SortedContactList :=
  applySCLOps { ownId := [0] }
    [.addCs [⟨[10], 0⟩, ⟨[11], 0⟩, ⟨[12], 0⟩, ⟨[13], 0⟩,
             ⟨[14], 0⟩, ⟨[15], 0⟩, ⟨[16], 0⟩, ⟨[17], 0⟩], .setCon [10], .setAct [11]]

/-- Witness for C7 at concrete inputs: the invariant after a concrete
operation sequence, the no-op on a duplicate id, and the eviction of the
farthest entry by a strictly closer contact on the concrete full list. -/
theorem sortedContactList_invariants_witness :
    SCLInv fullSCL ∧
    ((fullSCL.addContact ⟨[10], 3⟩) = fullSCL) ∧
    ([2] ∈ ((fullSCL.addContact ⟨[2], 5⟩).contacts.map (·.contact.id)) ∧
      [17] ∉ ((fullSCL.addContact ⟨[2], 5⟩).contacts.map (·.contact.id)) ∧
      (fullSCL.addContact ⟨[2], 5⟩).contacts.length = Kconst) := by
  have hmain := sortedContactList_invariants [0]
    [.addCs [⟨[10], 0⟩, ⟨[11], 0⟩, ⟨[12], 0⟩, ⟨[13], 0⟩,
             ⟨[14], 0⟩, ⟨[15], 0⟩, ⟨[16], 0⟩, ⟨[17], 0⟩], .setCon [10], .setAct [11]]
  refine ⟨hmain.1, ?_, ?_⟩
  · exact hmain.2.1 fullSCL ⟨[10], 3⟩ (by decide)
  · refine hmain.2.2 fullSCL ⟨[2], 5⟩ ⟨⟨[17], 0⟩, false, false⟩
      ⟨by decide, by decide, by decide⟩ (by decide) (by decide) (by decide) (by decide)

/-! ## Monotone convergence of the neighbor list's closest contact

The loop conditions of `joinDht` compare the closest contact id before and
after a probe round.  The lemmas below show that every mutation the round
performs on the neighbor list either keeps the closest contact id or makes
the closest contact strictly closer — the invariant both the specification's
convergence argument (C1, C2) and the escalation analysis (C3) rest on. -/

/-- The XOR distance of the neighbor list's closest entry to its owner;
`none` (no entry) plays the role of an infinite distance. -/
def cdist (l : SortedContactList) : Option Nat :=
  l.getClosestContactId.map (kdist l.ownId)

/-- Weak order on optional distances, `none` at the top. -/
def odLE : Option Nat → Option Nat → Prop
  | _, none => True
  | none, some _ => False
  | some x, some y => x ≤ y

/-- Strict order on optional distances, `none` at the top. -/
def odLT : Option Nat → Option Nat → Prop
  | none, _ => False
  | some _, none => True
  | some x, some y => x < y

instance : ∀ a b : Option Nat, Decidable (odLE a b)
  | none, none => .isTrue trivial
  | some _, none => .isTrue trivial
  | none, some _ => .isFalse (fun h => h)
  | some x, some y => inferInstanceAs (Decidable (x ≤ y))

instance : ∀ a b : Option Nat, Decidable (odLT a b)
  | none, none => .isFalse (fun h => h)
  | none, some _ => .isFalse (fun h => h)
  | some _, none => .isTrue trivial
  | some x, some y => inferInstanceAs (Decidable (x < y))

/-- Reflexivity of the weak order. -/
theorem odLE_refl : ∀ a : Option Nat, odLE a a
  | none => trivial
  | some _ => Nat.le_refl _

/-- The strict order implies the weak one. -/
theorem odLT_odLE : ∀ {a b : Option Nat}, odLT a b → odLE a b
  | none, _, h => h.elim
  | some _, none, _ => trivial
  | some _, some _, h => Nat.le_of_lt h

/-- Transitivity of the strict order. -/
theorem odLT_trans : ∀ {a b c : Option Nat}, odLT a b → odLT b c → odLT a c
  | none, _, _, h, _ => h.elim
  | some _, none, _, _, h2 => h2.elim
  | some _, some _, none, _, _ => trivial
  | some _, some _, some _, h, h2 => Nat.lt_trans h h2

/-- A strict bound below `some` is itself `some`. -/
theorem odLT_some : ∀ {a : Option Nat} {d : Nat}, odLT a (some d) → ∃ e, a = some e ∧ e < d
  | none, _, h => h.elim
  | some e, _, h => ⟨e, rfl, h⟩

/-- One probe-round mutation step on a neighbor list: the owner id is kept,
and the closest contact id is either unchanged or strictly closer. -/
def NLStep (l l2 : SortedContactList) : Prop :=
  l2.ownId = l.ownId ∧
  (l2.getClosestContactId = l.getClosestContactId ∨ odLT (cdist l2) (cdist l))

/-- `cdist` only depends on the owner id and the closest contact id. -/
theorem cdist_congr (l l2 : SortedContactList) (hown : l2.ownId = l.ownId)
    (hcid : l2.getClosestContactId = l.getClosestContactId) : cdist l2 = cdist l := by
  simp [cdist, hown, hcid]

/-- The step relation is reflexive. -/
theorem NLStep_refl (l : SortedContactList) : NLStep l l :=
  ⟨rfl, Or.inl rfl⟩

/-- The step relation is transitive. -/
theorem NLStep_trans {l1 l2 l3 : SortedContactList} (h1 : NLStep l1 l2)
    (h2 : NLStep l2 l3) : NLStep l1 l3 := by
  obtain ⟨ho1, hc1⟩ := h1
  obtain ⟨ho2, hc2⟩ := h2
  refine ⟨ho2.trans ho1, ?_⟩
  rcases hc1 with hc1 | hc1 <;> rcases hc2 with hc2 | hc2
  · exact Or.inl (hc2.trans hc1)
  · exact Or.inr (by rw [cdist_congr l1 l2 ho1 hc1] at hc2; exact hc2)
  · exact Or.inr (by rw [cdist_congr l2 l3 ho2 hc2]; exact hc1)
  · exact Or.inr (odLT_trans hc2 hc1)

/-- A step never increases the closest distance. -/
theorem NLStep.cdist_le {l l2 : SortedContactList} (h : NLStep l l2) :
    odLE (cdist l2) (cdist l) := by
  rcases h.2 with hc | hc
  · rw [cdist_congr l l2 h.1 hc]
    exact odLE_refl _
  · exact odLT_odLE hc

/-- A step that changes the closest contact id strictly decreases the
closest distance. -/
theorem NLStep.cdist_lt {l l2 : SortedContactList} (h : NLStep l l2)
    (hne : l2.getClosestContactId ≠ l.getClosestContactId) :
    odLT (cdist l2) (cdist l) := by
  rcases h.2 with hc | hc
  · exact absurd hc hne
  · exact hc

/-- The head of a sorted insertion: the old head if it is at most as far as
the new entry, otherwise the new entry. -/
theorem head?_insertFar (own : NodeId) (e : SCLEntry) :
    ∀ ys : List SCLEntry,
      (insertFar own e ys).head? =
        (match ys with
         | [] => some e
         | x :: _ =>
             if kdist own x.contact.id ≤ kdist own e.contact.id then some x else some e) := by
  intro ys
  match ys with
  | [] => rfl
  | x :: xs =>
      simp only [insertFar]
      split <;> rfl

/-- Dropping the last element of a list with at least two elements keeps the
head. -/
theorem head?_dropLast {α : Type} (l : List α) (h : 2 ≤ l.length) :
    l.dropLast.head? = l.head? := by
  match l ,h with
  | x :: y :: t, _ => simp [List.dropLast_cons₂]

/-- `addContact` keeps the closest contact id unless the new contact is
strictly closer, in which case the closest distance strictly decreases. -/
theorem NLStep_addContact (l : SortedContactList) (c : Contact) :
    NLStep l (l.addContact c) := by
  by_cases hdup : l.contacts.any (fun e => e.contact.id = c.id)
  · simp only [SortedContactList.addContact, if_pos hdup]
    exact NLStep_refl l
  · have hown : (l.addContact c).ownId = l.ownId := by
      simp only [SortedContactList.addContact, if_neg hdup]
    have hper := insertFar_perm l.ownId { contact := c } l.contacts
    have hlen' : (insertFar l.ownId { contact := c } l.contacts).length =
        l.contacts.length + 1 := by simpa using hper.length_eq
    have hhead : (l.addContact c).contacts.head? =
        (insertFar l.ownId { contact := c } l.contacts).head? := by
      simp only [SortedContactList.addContact, if_neg hdup]
      by_cases hK : Kconst < (insertFar l.ownId { contact := c } l.contacts).length
      · simp only [if_pos hK]
        exact head?_dropLast _ (by simp only [Kconst] at hK; omega)
      · simp only [if_neg hK]
    refine ⟨hown, ?_⟩
    match hml : l.contacts with
    | [] =>
      right
      have : (l.addContact c).contacts.head? = some { contact := c } := by
        rw [hhead, head?_insertFar, hml]
      simp only [cdist, SortedContactList.getClosestContactId, this, hml, hown]
      simp [odLT]
    | x :: xs =>
      by_cases hle : kdist l.ownId x.contact.id ≤ kdist l.ownId c.id
      · left
        have h1 : (l.addContact c).contacts.head? = some x := by
          rw [hhead, head?_insertFar, hml]
          simp only [if_pos hle]
        simp only [SortedContactList.getClosestContactId, h1, hml, List.head?_cons]
      · right
        have h1 : (l.addContact c).contacts.head? = some { contact := c } := by
          rw [hhead, head?_insertFar, hml]
          simp only [if_neg hle]
        simp only [cdist, SortedContactList.getClosestContactId, h1, hml, hown]
        simp only [Option.map_some', List.head?_cons]
        simp only [odLT]
        omega

/-- `addContacts` is a chain of steps. -/
theorem NLStep_addContacts (l : SortedContactList) (cs : List Contact) :
    NLStep l (l.addContacts cs) := by
  induction cs generalizing l with
  | nil => exact NLStep_refl l
  | cons c cs ih =>
    have h1 := NLStep_addContact l c
    have h2 := ih (l.addContact c)
    have : (l.addContact c).addContacts cs = l.addContacts (c :: cs) := by
      simp [SortedContactList.addContacts]
    rw [this] at h2
    exact NLStep_trans h1 h2

/-- `setContacted` keeps head and owner. -/
theorem closestId_setContacted (l : SortedContactList) (i : NodeId) :
    (l.setContacted i).getClosestContactId = l.getClosestContactId := by
  simp only [SortedContactList.setContacted, SortedContactList.getClosestContactId]
  match l.contacts with
  | [] => rfl
  | x :: xs =>
      by_cases h : x.contact.id = i <;> simp [h]

/-- `setActive` keeps head and owner. -/
theorem closestId_setActive (l : SortedContactList) (i : NodeId) :
    (l.setActive i).getClosestContactId = l.getClosestContactId := by
  simp only [SortedContactList.setActive, SortedContactList.getClosestContactId]
  match l.contacts with
  | [] => rfl
  | x :: xs =>
      by_cases h : x.contact.id = i <;> simp [h]

/-- `setContacted` is a (trivial) step. -/
theorem NLStep_setContacted (l : SortedContactList) (i : NodeId) :
    NLStep l (l.setContacted i) :=
  ⟨rfl, Or.inl (closestId_setContacted l i)⟩

/-- `setActive` is a (trivial) step. -/
theorem NLStep_setActive (l : SortedContactList) (i : NodeId) :
    NLStep l (l.setActive i) :=
  ⟨rfl, Or.inl (closestId_setActive l i)⟩

/-- The RPC handler's side effect on the responder's neighbor list is a
step. -/
theorem NLStep_getClosestNodesTo (st : NodeState) (id : NodeId) (caller : Nat) :
    NLStep st.neighborList (getClosestNodesTo st id caller).2.neighborList := by
  simp only [getClosestNodesTo]
  split
  · exact NLStep_refl _
  · exact NLStep_addContact _ _

/-- The neighbor list of a freshly written node. -/
theorem nlOf_setN_self (w : World) (i : Nat) (st : NodeState) :
    (getN (setN w i st) i).neighborList = st.neighborList := by
  simp [getN, setN, Function.update_same]

/-- Writing another node leaves a node's neighbor list alone. -/
theorem nlOf_setN_ne (w : World) (i j : Nat) (st : NodeState) (h : j ≠ i) :
    (getN (setN w i st) j).neighborList = (getN w j).neighborList := by
  simp [getN, setN, Function.update_noteq h]

/-- Reading back a freshly written node. -/
theorem getN_setN_self (w : World) (i : Nat) (st : NodeState) :
    getN (setN w i st) i = st := by
  simp [getN, setN]

/-- Writing one node leaves the others alone. -/
theorem getN_setN_ne (w : World) (i j : Nat) (st : NodeState) (h : j ≠ i) :
    getN (setN w i st) j = getN w j := by
  simp [getN, setN, Function.update_noteq h]

/-- The prober's state after the flag updates and counter bump of one
`findMoreContacts` iteration (naming the intermediate worlds of
`processOneContact` for the proofs below). -/
def pocW1 (selfIdx : Nat) (c : Contact) (w : World) : World :=
  let st0 := getN w selfIdx
  setN w selfIdx
    { st0 with
        neighborList := (st0.neighborList.setContacted c.id).setActive c.id
        numberOfOutgoingRpcCalls := st0.numberOfOutgoingRpcCalls + 1 }

/-- The RPC of one `findMoreContacts` iteration. -/
def pocRpc (selfIdx : Nat) (c : Contact) (w : World) : List Contact × NodeState :=
  getClosestNodesTo (getN (pocW1 selfIdx c w) c.dhtNode)
    (getN (pocW1 selfIdx c w) selfIdx).ownId selfIdx

/-- The world after the RPC's side effect on the callee. -/
def pocW2 (selfIdx : Nat) (c : Contact) (w : World) : World :=
  setN (pocW1 selfIdx c w) c.dhtNode (pocRpc selfIdx c w).2

/-- The world after merging the returned contacts into the shortlist. -/
def pocW3 (selfIdx : Nat) (c : Contact) (w : World) : World :=
  let st2 := getN (pocW2 selfIdx c w) selfIdx
  setN (pocW2 selfIdx c w) selfIdx
    { st2 with neighborList := st2.neighborList.addContacts (pocRpc selfIdx c w).1 }

/-- `processOneContact` decomposed into its successive worlds. -/
theorem processOneContact_decomp (selfIdx : Nat) (c : Contact) (w : World) :
    processOneContact selfIdx c w =
      (let st3 := getN (pocW3 selfIdx c w) selfIdx
       setN (pocW3 selfIdx c w) selfIdx
        { st3 with
            bucket := (pocRpc selfIdx c w).1.foldl
              (fun b rc => if (b.get rc.id).isSome then b else b.add rc) st3.bucket }) := rfl

/-- One probed contact of `findMoreContacts` takes the prober's neighbor
list through a step: the flag updates keep the head, a self-RPC can add the
searched id, and merging the returned contacts only adds. -/
theorem NLStep_processOneContact (selfIdx : Nat) (c : Contact) (w : World) :
    NLStep (getN w selfIdx).neighborList
      (getN (processOneContact selfIdx c w) selfIdx).neighborList := by
  have s1 : NLStep (getN w selfIdx).neighborList
      (getN (pocW1 selfIdx c w) selfIdx).neighborList := by
    rw [pocW1, getN_setN_self]
    exact NLStep_trans (NLStep_setContacted _ _) (NLStep_setActive _ _)
  have s2 : NLStep (getN (pocW1 selfIdx c w) selfIdx).neighborList
      (getN (pocW2 selfIdx c w) selfIdx).neighborList := by
    by_cases hc : c.dhtNode = selfIdx
    · rw [pocW2, hc, getN_setN_self, pocRpc, hc]
      exact NLStep_getClosestNodesTo _ _ _
    · rw [pocW2, getN_setN_ne _ _ _ _ (fun h => hc h.symm)]
      exact NLStep_refl _
  have s3 : NLStep (getN (pocW2 selfIdx c w) selfIdx).neighborList
      (getN (pocW3 selfIdx c w) selfIdx).neighborList := by
    rw [pocW3, getN_setN_self]
    exact NLStep_addContacts _ _
  have s4 : NLStep (getN (pocW3 selfIdx c w) selfIdx).neighborList
      (getN (processOneContact selfIdx c w) selfIdx).neighborList := by
    rw [processOneContact_decomp, getN_setN_self]
    exact NLStep_refl _
  exact NLStep_trans (NLStep_trans (NLStep_trans s1 s2) s3) s4

/-- A whole probe round (`findMoreContacts`) takes the prober's neighbor
list through a step. -/
theorem NLStep_findMoreContacts (selfIdx : Nat) (cs : List Contact) (w : World) :
    NLStep (getN w selfIdx).neighborList
      (getN (findMoreContacts selfIdx cs w) selfIdx).neighborList := by
  induction cs generalizing w with
  | nil => exact NLStep_refl _
  | cons c cs ih =>
    have h1 := NLStep_processOneContact selfIdx c w
    have h2 := ih (processOneContact selfIdx c w)
    have heq : findMoreContacts selfIdx cs (processOneContact selfIdx c w) =
        findMoreContacts selfIdx (c :: cs) w := by
      simp [findMoreContacts]
    rw [heq] at h2
    exact NLStep_trans h1 h2

/-- `closestDistOf` is the `cdist` of the node's neighbor list. -/
theorem closestDistOf_eq (w : World) (i : Nat) :
    closestDistOf w i = cdist (getN w i).neighborList := rfl

/-- The recorded width of a round. -/
theorem mkRound_width (i wd : Nat) (w w1 : World) : (mkRound i wd w w1).width = wd := rfl

/-- The recorded pre-round distance. -/
theorem mkRound_distBefore (i wd : Nat) (w w1 : World) :
    (mkRound i wd w w1).distBefore = closestDistOf w i := rfl

/-- The recorded post-round distance. -/
theorem mkRound_distAfter (i wd : Nat) (w w1 : World) :
    (mkRound i wd w w1).distAfter = closestDistOf w1 i := rfl

/-- The recorded post-round active count. -/
theorem mkRound_activeAfter (i wd : Nat) (w w1 : World) :
    (mkRound i wd w w1).activeAfter = activeCountOf w1 i := rfl

/-- A round stagnated exactly when the closest contact id was unchanged. -/
theorem mkRound_stagnated (i wd : Nat) (w w1 : World) :
    (mkRound i wd w w1).stagnated = decide (closestIdOf w i = closestIdOf w1 i) := rfl

/-- A probe round never increases the closest distance. -/
theorem round_odLE (selfIdx : Nat) (u : List Contact) (w : World) :
    odLE (closestDistOf (findMoreContacts selfIdx u w) selfIdx) (closestDistOf w selfIdx) := by
  rw [closestDistOf_eq, closestDistOf_eq]
  exact (NLStep_findMoreContacts selfIdx u w).cdist_le

/-- A probe round that changes the closest contact id strictly decreases the
closest distance. -/
theorem round_odLT (selfIdx : Nat) (u : List Contact) (w : World)
    (hne : ¬ closestIdOf w selfIdx = closestIdOf (findMoreContacts selfIdx u w) selfIdx) :
    odLT (closestDistOf (findMoreContacts selfIdx u w) selfIdx) (closestDistOf w selfIdx) := by
  rw [closestDistOf_eq, closestDistOf_eq]
  exact (NLStep_findMoreContacts selfIdx u w).cdist_lt (fun he => hne he.symm)

/-- `getLast?` skips the head of a list with a nonempty tail. -/
theorem getLast?_cons_ne {α : Type} (x : α) (l : List α) (h : l ≠ []) :
    (x :: l).getLast? = l.getLast? := by
  match l, h with
  | y :: t, _ => exact List.getLast?_cons_cons

/-- The bundle of trace facts the inner loop of `joinDht` guarantees: the
trace is nonempty, starts with the primed width and the current closest
distance, its distances never increase and chain across rounds, a round is
followed by a `K`-wide round exactly when it stagnated (never, inside the
inner loop: stagnation exits), and the final round stagnated or saw `K`
active contacts. -/
theorem innerLoopT_spec (selfIdx : Nat) :
    ∀ fuel width u w w2 tr,
      innerLoopT selfIdx fuel width u w = some (w2, tr) →
      tr ≠ [] ∧
      tr.head?.map (·.width) = some width ∧
      tr.head?.map (·.distBefore) = some (closestDistOf w selfIdx) ∧
      (∀ r ∈ tr, odLE r.distAfter r.distBefore) ∧
      List.Chain' (fun r r2 => r2.distBefore = r.distAfter) tr ∧
      List.Chain' (fun r r2 => (r.stagnated = true) ↔ (r2.width = Kconst)) tr ∧
      (∀ r, tr.getLast? = some r → r.stagnated = true ∨ Kconst ≤ r.activeAfter) := by
  intro fuel
  induction fuel with
  | zero =>
    intro width u w w2 tr h
    simp [innerLoopT] at h
  | succ fuel ih =>
    intro width u w w2 tr h
    simp only [innerLoopT] at h
    by_cases hcond : Kconst ≤ activeCountOf (findMoreContacts selfIdx u w) selfIdx ∨
        closestIdOf w selfIdx = closestIdOf (findMoreContacts selfIdx u w) selfIdx
    · rw [if_pos hcond] at h
      simp only [Option.some.injEq, Prod.mk.injEq] at h
      obtain ⟨h1, h2⟩ := h
      subst h1
      subst h2
      refine ⟨by simp, by simp [mkRound_width], by simp [mkRound_distBefore], ?_, ?_, ?_, ?_⟩
      · intro r hr
        rw [List.mem_singleton.mp hr]
        rw [mkRound_distAfter, mkRound_distBefore]
        exact round_odLE selfIdx u w
      · simp
      · simp
      · intro r hr
        simp only [List.getLast?_singleton, Option.some.injEq] at hr
        subst hr
        rcases hcond with hcond | hcond
        · right
          rw [mkRound_activeAfter]
          exact hcond
        · left
          rw [mkRound_stagnated]
          exact decide_eq_true hcond
    · rw [if_neg hcond] at h
      cases hrec : innerLoopT selfIdx fuel ALPHA
          ((getN (findMoreContacts selfIdx u w) selfIdx).neighborList.getUncontactedContacts ALPHA)
          (findMoreContacts selfIdx u w) with
      | none => rw [hrec] at h; simp at h
      | some p =>
        rw [hrec] at h
        obtain ⟨w3, tr3⟩ := p
        simp only [Option.some.injEq, Prod.mk.injEq] at h
        obtain ⟨h1, h2⟩ := h
        subst h1
        subst h2
        obtain ⟨hne, hhw, hhd, hle, hcd, hci, hlast⟩ :=
          ih ALPHA _ (findMoreContacts selfIdx u w) w3 tr3 hrec
        obtain ⟨r2, tr4, rfl⟩ := List.exists_cons_of_ne_nil hne
        have hr2w : r2.width = ALPHA := by
          simp only [List.head?_cons, Option.map_some', Option.some.injEq] at hhw
          exact hhw
        have hr2d : r2.distBefore = closestDistOf (findMoreContacts selfIdx u w) selfIdx := by
          simp only [List.head?_cons, Option.map_some', Option.some.injEq] at hhd
          exact hhd
        have hnotstag : ¬ closestIdOf w selfIdx =
            closestIdOf (findMoreContacts selfIdx u w) selfIdx := by
          intro hx
          exact hcond (Or.inr hx)
        refine ⟨by simp, by simp [mkRound_width], by simp [mkRound_distBefore], ?_, ?_, ?_, ?_⟩
        · intro r hr
          rcases List.mem_cons.mp hr with hr | hr
          · subst hr
            rw [mkRound_distAfter, mkRound_distBefore]
            exact round_odLE selfIdx u w
          · exact hle r hr
        · rw [List.chain'_cons]
          refine ⟨?_, hcd⟩
          rw [hr2d, mkRound_distAfter]
        · rw [List.chain'_cons]
          refine ⟨?_, hci⟩
          rw [hr2w, mkRound_stagnated]
          constructor
          · intro hx
            exact absurd (of_decide_eq_true hx) hnotstag
          · intro hx
            exact absurd hx (by decide)
        · intro r hr
          rw [getLast?_cons_ne _ _ (by simp)] at hr
          exact hlast r hr

/-- The same bundle of trace facts for the outer loop of `joinDht`: rounds
start at width `ALPHA`, distances never increase and chain, a round is
followed by a `K`-wide (escalated) round exactly when it stagnated, and the
final round stagnated or saw `K` active contacts. -/
theorem outerLoopT_spec (selfIdx : Nat) :
    ∀ fuel w w2 tr,
      outerLoopT selfIdx fuel w = some (w2, tr) →
      tr ≠ [] ∧
      tr.head?.map (·.width) = some ALPHA ∧
      tr.head?.map (·.distBefore) = some (closestDistOf w selfIdx) ∧
      (∀ r ∈ tr, odLE r.distAfter r.distBefore) ∧
      List.Chain' (fun r r2 => r2.distBefore = r.distAfter) tr ∧
      List.Chain' (fun r r2 => (r.stagnated = true) ↔ (r2.width = Kconst)) tr ∧
      (∀ r, tr.getLast? = some r → r.stagnated = true ∨ Kconst ≤ r.activeAfter) := by
  intro fuel
  induction fuel with
  | zero =>
    intro w w2 tr h
    simp [outerLoopT] at h
  | succ fuel ih =>
    intro w w2 tr h
    simp only [outerLoopT] at h
    by_cases hcond : closestIdOf w selfIdx =
        closestIdOf (findMoreContacts selfIdx
          ((getN w selfIdx).neighborList.getUncontactedContacts ALPHA) w) selfIdx
    · rw [if_pos hcond] at h
      cases hrec : innerLoopT selfIdx fuel Kconst
          ((getN (findMoreContacts selfIdx
              ((getN w selfIdx).neighborList.getUncontactedContacts ALPHA) w)
            selfIdx).neighborList.getUncontactedContacts Kconst)
          (findMoreContacts selfIdx
            ((getN w selfIdx).neighborList.getUncontactedContacts ALPHA) w) with
      | none => rw [hrec] at h; simp at h
      | some p =>
        rw [hrec] at h
        obtain ⟨w3, tr3⟩ := p
        simp only [Option.some.injEq, Prod.mk.injEq] at h
        obtain ⟨h1, h2⟩ := h
        subst h1
        subst h2
        obtain ⟨hne, hhw, hhd, hle, hcd, hci, hlast⟩ := innerLoopT_spec selfIdx fuel Kconst _ _ w3 tr3 hrec
        obtain ⟨r2, tr4, rfl⟩ := List.exists_cons_of_ne_nil hne
        have hr2w : r2.width = Kconst := by
          simp only [List.head?_cons, Option.map_some', Option.some.injEq] at hhw
          exact hhw
        have hr2d : r2.distBefore = closestDistOf (findMoreContacts selfIdx
            ((getN w selfIdx).neighborList.getUncontactedContacts ALPHA) w) selfIdx := by
          simp only [List.head?_cons, Option.map_some', Option.some.injEq] at hhd
          exact hhd
        refine ⟨by simp, by simp [mkRound_width], by simp [mkRound_distBefore], ?_, ?_, ?_, ?_⟩
        · intro r hr
          rcases List.mem_cons.mp hr with hr | hr
          · subst hr
            rw [mkRound_distAfter, mkRound_distBefore]
            exact round_odLE selfIdx _ w
          · exact hle r hr
        · rw [List.chain'_cons]
          refine ⟨?_, hcd⟩
          rw [hr2d, mkRound_distAfter]
        · rw [List.chain'_cons]
          refine ⟨?_, hci⟩
          rw [hr2w, mkRound_stagnated]
          constructor
          · intro _; rfl
          · intro _
            exact decide_eq_true hcond
        · intro r hr
          rw [getLast?_cons_ne _ _ (by simp)] at hr
          exact hlast r hr
    · rw [if_neg hcond] at h
      cases hrec : outerLoopT selfIdx fuel
          (findMoreContacts selfIdx
            ((getN w selfIdx).neighborList.getUncontactedContacts ALPHA) w) with
      | none => rw [hrec] at h; simp at h
      | some p =>
        rw [hrec] at h
        obtain ⟨w3, tr3⟩ := p
        simp only [Option.some.injEq, Prod.mk.injEq] at h
        obtain ⟨h1, h2⟩ := h
        subst h1
        subst h2
        obtain ⟨hne, hhw, hhd, hle, hcd, hci, hlast⟩ := ih _ w3 tr3 hrec
        obtain ⟨r2, tr4, rfl⟩ := List.exists_cons_of_ne_nil hne
        have hr2w : r2.width = ALPHA := by
          simp only [List.head?_cons, Option.map_some', Option.some.injEq] at hhw
          exact hhw
        have hr2d : r2.distBefore = closestDistOf (findMoreContacts selfIdx
            ((getN w selfIdx).neighborList.getUncontactedContacts ALPHA) w) selfIdx := by
          simp only [List.head?_cons, Option.map_some', Option.some.injEq] at hhd
          exact hhd
        refine ⟨by simp, by simp [mkRound_width], by simp [mkRound_distBefore], ?_, ?_, ?_, ?_⟩
        · intro r hr
          rcases List.mem_cons.mp hr with hr | hr
          · subst hr
            rw [mkRound_distAfter, mkRound_distBefore]
            exact round_odLE selfIdx _ w
          · exact hle r hr
        · rw [List.chain'_cons]
          refine ⟨?_, hcd⟩
          rw [hr2d, mkRound_distAfter]
        · rw [List.chain'_cons]
          refine ⟨?_, hci⟩
          rw [hr2w, mkRound_stagnated]
          constructor
          · intro hx
            exact absurd (of_decide_eq_true hx) hcond
          · intro hx
            exact absurd hx (by decide)
        · intro r hr
          rw [getLast?_cons_ne _ _ (by simp)] at hr
          exact hlast r hr

/-! ## C2: monotone closest-distance across probe rounds -/

/-- C2: for every completed `joinDht` call whose entry point's contact id
differs from the node's own id, the XOR distance from the neighbor list's
closest contact id to the node's own id is monotonically non-increasing
across the successive probe rounds: after each round it is at most what it
was before the round, and each round's before-distance is the previous
round's after-distance. -/
theorem joinDht_closest_monotone (w : World) (selfIdx entryIdx fuel : Nat)
    (w2 : World) (tr : List ProbeRound)
    (hne : (getN w entryIdx).ownId ≠ (getN w selfIdx).ownId)
    (h : joinDhtT selfIdx entryIdx fuel w = some (w2, tr)) :
    (∀ r ∈ tr, odLE r.distAfter r.distBefore) ∧
    List.Chain' (fun r r2 => r2.distBefore = r.distAfter) tr := by
  rw [joinDhtT, if_neg hne] at h
  obtain ⟨_, _, _, hle, hcd, _, _⟩ := outerLoopT_spec selfIdx fuel _ w2 tr h
  exact ⟨hle, hcd⟩

/-- A two-node world for the C2 and C3 witnesses: the joiner `[64]` at index
0 and the entry point `[200]` at index 1. -/
def simpleJoinWorld : World :=
  fun i => if i = 0 then mkDhtNode [64] else if i = 1 then mkDhtNode [200] else mkDhtNode []

/-- Witness for C2 at a concrete input. -/
theorem joinDht_closest_monotone_witness :
    ∃ w2 tr, joinDhtT 0 1 10 simpleJoinWorld = some (w2, tr) ∧
      (∀ r ∈ tr, odLE r.distAfter r.distBefore) ∧
      List.Chain' (fun r r2 => r2.distBefore = r.distAfter) tr :=
  ⟨_, _, rfl, joinDht_closest_monotone simpleJoinWorld 0 1 10 _ _ (by decide) rfl⟩

/-! ## C3: when does the lookup escalate and stop -/

/-- The formalization of claim C3 about a completed round trace:
(a) a probe round that leaves the closest contact id unchanged is followed
by a round allowed up to `K` uncontacted contacts; (b) the execution stops
exactly when convergence holds under the widened (`K`) search or the active
count reaches `K`: the final round satisfies that disjunction and (c) no
earlier round does ("whichever happens first"). -/
def escalationClaim (tr : List ProbeRound) : Prop :=
  List.Chain' (fun r r2 => r.stagnated = true → r2.width = Kconst) tr ∧
  (∀ r, tr.getLast? = some r →
    ((r.width = Kconst ∧ r.stagnated = true) ∨ Kconst ≤ r.activeAfter)) ∧
  List.Chain' (fun r _ =>
    ¬ ((r.width = Kconst ∧ r.stagnated = true) ∨ Kconst ≤ r.activeAfter)) tr

/-- A node state with a preloaded bucket, for counterexample worlds. -/
def preloadedNode (own : NodeId) (cs : List Contact) : NodeState :=
  { mkDhtNode own with bucket := cs.foldl KBucket.add (KBucket.empty own Kconst) }

/-- The counterexample world for C3: the joiner `[64]` (index 0) joins via
`[200]` (index 1); the topology makes the outer loop stagnate once (probing
`[70]` yields only farther nodes), the escalated `K`-wide round discover the
closer `[66]`, and the following `ALPHA`-wide round probe three dead ends
and stagnate with only 6 active contacts while `[82]`, `[83]` are still
uncontacted — the run then stops even though the claim's termination
condition does not hold. -/
def escWorld : World := fun i =>
  if i = 0 then mkDhtNode [64]
  else if i = 1 then preloadedNode [200] [⟨[70], 2⟩]
  else if i = 2 then preloadedNode [70] [⟨[71], 3⟩, ⟨[72], 4⟩]
  else if i = 3 then preloadedNode [71] [⟨[66], 5⟩]
  else if i = 4 then preloadedNode [72] [⟨[80], 6⟩, ⟨[81], 7⟩, ⟨[82], 8⟩, ⟨[83], 9⟩]
  else if i = 5 then mkDhtNode [66]
  else if i = 6 then mkDhtNode [80]
  else if i = 7 then mkDhtNode [81]
  else if i = 8 then preloadedNode [82] [⟨[65], 10⟩]
  else if i = 9 then mkDhtNode [83]
  else if i = 10 then mkDhtNode [65]
  else mkDhtNode []

/-- The round trace `joinDht` produces on `escWorld`. -/
def escTrace : List ProbeRound :=
  [{ width := 3, idBefore := some [200], idAfter := some [70],
     distBefore := some 136, distAfter := some 6, activeAfter := 1 },
   { width := 3, idBefore := some [70], idAfter := some [70],
     distBefore := some 6, distAfter := some 6, activeAfter := 2 },
   { width := 8, idBefore := some [70], idAfter := some [66],
     distBefore := some 6, distAfter := some 2, activeAfter := 3 },
   { width := 3, idBefore := some [66], idAfter := some [66],
     distBefore := some 2, distAfter := some 2, activeAfter := 6 }]

/-- Counterexample to C3: on `escWorld` the lookup completes with a final
round of width `ALPHA = 3` that stagnated with only 6 active contacts, so
`joinDht` terminated although neither convergence under the widened
(`K`-wide) search nor an active-contact count of `K` held — the claimed
termination condition is violated. -/
theorem joinDht_escalation_cex :
    ((joinDhtT 0 1 20 escWorld).map (·.2) = some escTrace) ∧ ¬ escalationClaim escTrace := by
  refine ⟨by decide, ?_⟩
  intro hcl
  have hlast := hcl.2.1
    { width := 3, idBefore := some [66], idAfter := some [66],
      distBefore := some 2, distAfter := some 2, activeAfter := 6 } (by decide)
  revert hlast
  decide

/-- C3 (amended): in every completed `joinDht` execution with a foreign
entry point, a probe round is followed by a `K`-wide (escalated) round
exactly when it left the closest contact id unchanged — in particular the
round after an outer-loop stagnation probes up to `K` uncontacted contacts,
and rounds after the widened one revert to width `ALPHA`; the execution
stops at a round that left the closest id unchanged or reached `K` active
contacts, whichever the inner loop observes first — but unlike the original
claim, a post-escalation `ALPHA`-wide stagnation also terminates the
search, and the active-count test is not applied during outer rounds. -/
theorem joinDht_escalation_amended (w : World) (selfIdx entryIdx fuel : Nat)
    (w2 : World) (tr : List ProbeRound)
    (hne : (getN w entryIdx).ownId ≠ (getN w selfIdx).ownId)
    (h : joinDhtT selfIdx entryIdx fuel w = some (w2, tr)) :
    List.Chain' (fun r r2 => (r.stagnated = true) ↔ (r2.width = Kconst)) tr ∧
    (∀ r, tr.getLast? = some r → r.stagnated = true ∨ Kconst ≤ r.activeAfter) := by
  rw [joinDhtT, if_neg hne] at h
  obtain ⟨_, _, _, _, _, hci, hlast⟩ := outerLoopT_spec selfIdx fuel _ w2 tr h
  exact ⟨hci, hlast⟩

/-- Witness for the amended C3 at a concrete input. -/
theorem joinDht_escalation_amended_witness :
    ∃ w2 tr, joinDhtT 0 1 20 escWorld = some (w2, tr) ∧
      List.Chain' (fun r r2 => (r.stagnated = true) ↔ (r2.width = Kconst)) tr ∧
      (∀ r, tr.getLast? = some r → r.stagnated = true ∨ Kconst ≤ r.activeAfter) :=
  ⟨_, _, rfl, joinDht_escalation_amended escWorld 0 1 20 _ _ (by decide) rfl⟩

/-! ## C1: the iterative lookup terminates -/

/-- An empty neighbor list has no uncontacted contacts. -/
theorem getUncontactedContacts_nil (l : SortedContactList)
    (h : l.getClosestContactId = none) (n : Nat) : l.getUncontactedContacts n = [] := by
  match hml : l.contacts with
  | [] => simp [SortedContactList.getUncontactedContacts, hml]
  | x :: xs =>
      rw [SortedContactList.getClosestContactId, hml] at h
      simp at h

/-- Probing no contacts changes nothing. -/
theorem findMoreContacts_nil (selfIdx : Nat) (w : World) :
    findMoreContacts selfIdx [] w = w := rfl

/-- More fuel keeps the inner loop completing. -/
theorem innerLoopT_isSome_mono (selfIdx : Nat) :
    ∀ f g wTag u w, f ≤ g → (innerLoopT selfIdx f wTag u w).isSome →
      (innerLoopT selfIdx g wTag u w).isSome := by
  intro f
  induction f with
  | zero =>
    intro g wTag u w _ h
    simp [innerLoopT] at h
  | succ f ih =>
    intro g wTag u w hfg h
    obtain ⟨g2, rfl⟩ : ∃ g2, g = g2 + 1 := ⟨g - 1, by omega⟩
    simp only [innerLoopT] at h ⊢
    by_cases hcond : Kconst ≤ activeCountOf (findMoreContacts selfIdx u w) selfIdx ∨
        closestIdOf w selfIdx = closestIdOf (findMoreContacts selfIdx u w) selfIdx
    · rw [if_pos hcond]
      simp
    · rw [if_neg hcond] at h ⊢
      cases hrec : innerLoopT selfIdx f ALPHA
          ((getN (findMoreContacts selfIdx u w) selfIdx).neighborList.getUncontactedContacts ALPHA)
          (findMoreContacts selfIdx u w) with
      | none => rw [hrec] at h; simp at h
      | some p =>
        have h2 : (innerLoopT selfIdx g2 ALPHA
            ((getN (findMoreContacts selfIdx u w) selfIdx).neighborList.getUncontactedContacts ALPHA)
            (findMoreContacts selfIdx u w)).isSome := by
          refine ih g2 ALPHA _ _ (by omega) ?_
          rw [hrec]; rfl
        cases hrec2 : innerLoopT selfIdx g2 ALPHA
            ((getN (findMoreContacts selfIdx u w) selfIdx).neighborList.getUncontactedContacts ALPHA)
            (findMoreContacts selfIdx u w) with
        | none => rw [hrec2] at h2; simp at h2
        | some p2 => rfl

/-- More fuel keeps the outer loop completing. -/
theorem outerLoopT_isSome_mono (selfIdx : Nat) :
    ∀ f g w, f ≤ g → (outerLoopT selfIdx f w).isSome →
      (outerLoopT selfIdx g w).isSome := by
  intro f
  induction f with
  | zero =>
    intro g w _ h
    simp [outerLoopT] at h
  | succ f ih =>
    intro g w hfg h
    obtain ⟨g2, rfl⟩ : ∃ g2, g = g2 + 1 := ⟨g - 1, by omega⟩
    simp only [outerLoopT] at h ⊢
    by_cases hcond : closestIdOf w selfIdx =
        closestIdOf (findMoreContacts selfIdx
          ((getN w selfIdx).neighborList.getUncontactedContacts ALPHA) w) selfIdx
    · rw [if_pos hcond] at h ⊢
      cases hrec : innerLoopT selfIdx f Kconst
          ((getN (findMoreContacts selfIdx
              ((getN w selfIdx).neighborList.getUncontactedContacts ALPHA) w)
            selfIdx).neighborList.getUncontactedContacts Kconst)
          (findMoreContacts selfIdx
            ((getN w selfIdx).neighborList.getUncontactedContacts ALPHA) w) with
      | none => rw [hrec] at h; simp at h
      | some p =>
        have h2 := innerLoopT_isSome_mono selfIdx f g2 Kconst _ _ (by omega) (by rw [hrec]; rfl)
        cases hrec2 : innerLoopT selfIdx g2 Kconst
            ((getN (findMoreContacts selfIdx
                ((getN w selfIdx).neighborList.getUncontactedContacts ALPHA) w)
              selfIdx).neighborList.getUncontactedContacts Kconst)
            (findMoreContacts selfIdx
              ((getN w selfIdx).neighborList.getUncontactedContacts ALPHA) w) with
        | none => rw [hrec2] at h2; simp at h2
        | some p2 => rfl
    · rw [if_neg hcond] at h ⊢
      cases hrec : outerLoopT selfIdx f
          (findMoreContacts selfIdx
            ((getN w selfIdx).neighborList.getUncontactedContacts ALPHA) w) with
      | none => rw [hrec] at h; simp at h
      | some p =>
        have h2 := ih g2 _ (by omega) (by rw [hrec]; rfl)
        cases hrec2 : outerLoopT selfIdx g2
            (findMoreContacts selfIdx
              ((getN w selfIdx).neighborList.getUncontactedContacts ALPHA) w) with
        | none => rw [hrec2] at h2; simp at h2
        | some p2 => rfl

/-- The inner loop completes once its fuel exceeds the current closest
distance by two: every round that does not exit strictly decreases the
closest distance, and an empty neighbor list exits at once. -/
theorem innerLoopT_total (selfIdx : Nat) :
    ∀ d f wTag lim w, d + 2 ≤ f →
      (closestDistOf w selfIdx = none ∨
        ∃ dd, closestDistOf w selfIdx = some dd ∧ dd ≤ d) →
      (innerLoopT selfIdx f wTag
        ((getN w selfIdx).neighborList.getUncontactedContacts lim) w).isSome := by
  intro d
  induction d with
  | zero =>
    intro f wTag lim w hf hb
    obtain ⟨f2, rfl⟩ : ∃ f2, f = f2 + 1 := ⟨f - 1, by omega⟩
    rcases hb with hb | ⟨dd, hb, hdd⟩
    · have hcid : closestIdOf w selfIdx = none := by
        rw [closestDistOf_eq] at hb
        exact Option.map_eq_none'.mp hb
      have hu : (getN w selfIdx).neighborList.getUncontactedContacts lim = [] :=
        getUncontactedContacts_nil _ hcid lim
      rw [hu]
      simp only [innerLoopT, findMoreContacts_nil]
      simp
    · simp only [innerLoopT]
      by_cases hcond : Kconst ≤ activeCountOf (findMoreContacts selfIdx
            ((getN w selfIdx).neighborList.getUncontactedContacts lim) w) selfIdx ∨
          closestIdOf w selfIdx = closestIdOf (findMoreContacts selfIdx
            ((getN w selfIdx).neighborList.getUncontactedContacts lim) w) selfIdx
      · rw [if_pos hcond]; rfl
      · exfalso
        have hlt := round_odLT selfIdx _ w (fun hx => hcond (Or.inr hx))
        rw [hb] at hlt
        obtain ⟨e, _, he⟩ := odLT_some hlt
        omega
  | succ d ih =>
    intro f wTag lim w hf hb
    obtain ⟨f2, rfl⟩ : ∃ f2, f = f2 + 1 := ⟨f - 1, by omega⟩
    rcases hb with hb | ⟨dd, hb, hdd⟩
    · have hcid : closestIdOf w selfIdx = none := by
        rw [closestDistOf_eq] at hb
        exact Option.map_eq_none'.mp hb
      have hu : (getN w selfIdx).neighborList.getUncontactedContacts lim = [] :=
        getUncontactedContacts_nil _ hcid lim
      rw [hu]
      simp only [innerLoopT, findMoreContacts_nil]
      simp
    · simp only [innerLoopT]
      by_cases hcond : Kconst ≤ activeCountOf (findMoreContacts selfIdx
            ((getN w selfIdx).neighborList.getUncontactedContacts lim) w) selfIdx ∨
          closestIdOf w selfIdx = closestIdOf (findMoreContacts selfIdx
            ((getN w selfIdx).neighborList.getUncontactedContacts lim) w) selfIdx
      · rw [if_pos hcond]; rfl
      · rw [if_neg hcond]
        have hlt := round_odLT selfIdx _ w (fun hx => hcond (Or.inr hx))
        rw [hb] at hlt
        obtain ⟨e, he, hed⟩ := odLT_some hlt
        have hrec := ih f2 ALPHA ALPHA
          (findMoreContacts selfIdx ((getN w selfIdx).neighborList.getUncontactedContacts lim) w)
          (by omega) (Or.inr ⟨e, he, by omega⟩)
        cases hrec2 : innerLoopT selfIdx f2 ALPHA
            ((getN (findMoreContacts selfIdx
                ((getN w selfIdx).neighborList.getUncontactedContacts lim) w)
              selfIdx).neighborList.getUncontactedContacts ALPHA)
            (findMoreContacts selfIdx
              ((getN w selfIdx).neighborList.getUncontactedContacts lim) w) with
        | none => rw [hrec2] at hrec; simp at hrec
        | some p => rfl

/-- The outer loop completes once its fuel exceeds twice the current
closest distance by three: a non-stagnating round strictly decreases the
closest distance, and a stagnating round hands over to the inner loop,
which completes by `innerLoopT_total`. -/
theorem outerLoopT_total (selfIdx : Nat) :
    ∀ d f w, 2 * d + 3 ≤ f →
      (closestDistOf w selfIdx = none ∨
        ∃ dd, closestDistOf w selfIdx = some dd ∧ dd ≤ d) →
      (outerLoopT selfIdx f w).isSome := by
  intro d
  induction d with
  | zero =>
    intro f w hf hb
    obtain ⟨f2, rfl⟩ : ∃ f2, f = f2 + 1 := ⟨f - 1, by omega⟩
    rcases hb with hb | ⟨dd, hb, hdd⟩
    · have hcid : closestIdOf w selfIdx = none := by
        rw [closestDistOf_eq] at hb
        exact Option.map_eq_none'.mp hb
      have hu : (getN w selfIdx).neighborList.getUncontactedContacts ALPHA = [] :=
        getUncontactedContacts_nil _ hcid ALPHA
      simp only [outerLoopT]
      rw [hu, findMoreContacts_nil, if_pos rfl]
      have hin := innerLoopT_total selfIdx 0 f2 Kconst Kconst w (by omega) (Or.inl hb)
      cases hrec : innerLoopT selfIdx f2 Kconst
          ((getN w selfIdx).neighborList.getUncontactedContacts Kconst) w with
      | none => rw [hrec] at hin; simp at hin
      | some p => rfl
    · simp only [outerLoopT]
      by_cases hcond : closestIdOf w selfIdx =
          closestIdOf (findMoreContacts selfIdx
            ((getN w selfIdx).neighborList.getUncontactedContacts ALPHA) w) selfIdx
      · rw [if_pos hcond]
        have hstep := NLStep_findMoreContacts selfIdx
          ((getN w selfIdx).neighborList.getUncontactedContacts ALPHA) w
        have hcd1 : closestDistOf (findMoreContacts selfIdx
            ((getN w selfIdx).neighborList.getUncontactedContacts ALPHA) w) selfIdx =
            some dd := by
          rw [closestDistOf_eq]
          rw [cdist_congr _ _ hstep.1 hcond.symm]
          rw [← closestDistOf_eq]
          exact hb
        have hin := innerLoopT_total selfIdx dd f2 Kconst Kconst _ (by omega)
          (Or.inr ⟨dd, hcd1, Nat.le_refl _⟩)
        cases hrec : innerLoopT selfIdx f2 Kconst
            ((getN (findMoreContacts selfIdx
                ((getN w selfIdx).neighborList.getUncontactedContacts ALPHA) w)
              selfIdx).neighborList.getUncontactedContacts Kconst)
            (findMoreContacts selfIdx
              ((getN w selfIdx).neighborList.getUncontactedContacts ALPHA) w) with
        | none => rw [hrec] at hin; simp at hin
        | some p => rfl
      · exfalso
        have hlt := round_odLT selfIdx _ w hcond
        rw [hb] at hlt
        obtain ⟨e, _, he⟩ := odLT_some hlt
        omega
  | succ d ih =>
    intro f w hf hb
    obtain ⟨f2, rfl⟩ : ∃ f2, f = f2 + 1 := ⟨f - 1, by omega⟩
    rcases hb with hb | ⟨dd, hb, hdd⟩
    · have hcid : closestIdOf w selfIdx = none := by
        rw [closestDistOf_eq] at hb
        exact Option.map_eq_none'.mp hb
      have hu : (getN w selfIdx).neighborList.getUncontactedContacts ALPHA = [] :=
        getUncontactedContacts_nil _ hcid ALPHA
      simp only [outerLoopT]
      rw [hu, findMoreContacts_nil, if_pos rfl]
      have hin := innerLoopT_total selfIdx 0 f2 Kconst Kconst w (by omega) (Or.inl hb)
      cases hrec : innerLoopT selfIdx f2 Kconst
          ((getN w selfIdx).neighborList.getUncontactedContacts Kconst) w with
      | none => rw [hrec] at hin; simp at hin
      | some p => rfl
    · simp only [outerLoopT]
      by_cases hcond : closestIdOf w selfIdx =
          closestIdOf (findMoreContacts selfIdx
            ((getN w selfIdx).neighborList.getUncontactedContacts ALPHA) w) selfIdx
      · rw [if_pos hcond]
        have hstep := NLStep_findMoreContacts selfIdx
          ((getN w selfIdx).neighborList.getUncontactedContacts ALPHA) w
        have hcd1 : closestDistOf (findMoreContacts selfIdx
            ((getN w selfIdx).neighborList.getUncontactedContacts ALPHA) w) selfIdx =
            some dd := by
          rw [closestDistOf_eq]
          rw [cdist_congr _ _ hstep.1 hcond.symm]
          rw [← closestDistOf_eq]
          exact hb
        have hin := innerLoopT_total selfIdx dd f2 Kconst Kconst _ (by omega)
          (Or.inr ⟨dd, hcd1, Nat.le_refl _⟩)
        cases hrec : innerLoopT selfIdx f2 Kconst
            ((getN (findMoreContacts selfIdx
                ((getN w selfIdx).neighborList.getUncontactedContacts ALPHA) w)
              selfIdx).neighborList.getUncontactedContacts Kconst)
            (findMoreContacts selfIdx
              ((getN w selfIdx).neighborList.getUncontactedContacts ALPHA) w) with
        | none => rw [hrec] at hin; simp at hin
        | some p => rfl
      · rw [if_neg hcond]
        have hlt := round_odLT selfIdx _ w hcond
        rw [hb] at hlt
        obtain ⟨e, he, hed⟩ := odLT_some hlt
        have hrec := ih f2
          (findMoreContacts selfIdx ((getN w selfIdx).neighborList.getUncontactedContacts ALPHA) w)
          (by omega) (Or.inr ⟨e, he, by omega⟩)
        cases hrec2 : outerLoopT selfIdx f2
            (findMoreContacts selfIdx
              ((getN w selfIdx).neighborList.getUncontactedContacts ALPHA) w) with
        | none => rw [hrec2] at hrec; simp at hrec
        | some p => rfl

/-- The world after the bootstrap of `joinDht` (entry contact added to the
bucket, neighbor list seeded with the `ALPHA` closest bucket contacts),
naming the seeding for the termination proof. -/
def joinSeed (selfIdx entryIdx : Nat) (w : World) : World :=
  let st := getN w selfIdx
  let entryContact : Contact := { id := (getN w entryIdx).ownId, dhtNode := entryIdx }
  let w1 := setN w selfIdx { st with bucket := st.bucket.add entryContact }
  let st1 := getN w1 selfIdx
  let closest := st1.bucket.closest st1.ownId (some ALPHA)
  setN w1 selfIdx { st1 with neighborList := st1.neighborList.addContacts closest }

/-- A non-self `joinDht` is the outer loop on the seeded world. -/
theorem joinDhtT_eq_outer (selfIdx entryIdx fuel : Nat) (w : World)
    (hne : (getN w entryIdx).ownId ≠ (getN w selfIdx).ownId) :
    joinDhtT selfIdx entryIdx fuel w =
      outerLoopT selfIdx fuel (joinSeed selfIdx entryIdx w) := by
  rw [joinDhtT, if_neg hne]
  rfl

/-- C1: for every world of `DhtNode`s and every `joinDht(entryPoint)` call
on one of them, the iterative lookup terminates: some finite fuel completes
the nested probe-round loops (the result is `some`).  The proof is the
monotonic closest-contact convergence argument: every probe round either
keeps the closest contact id — which makes the loops exit — or strictly
decreases the closest contact's XOR distance, a well-founded measure. -/
theorem joinDht_terminates (w : World) (selfIdx entryIdx : Nat) :
    ∃ fuel, (joinDhtT selfIdx entryIdx fuel w).isSome ∧
      (joinDht selfIdx entryIdx fuel w).isSome := by
  by_cases heq : (getN w entryIdx).ownId = (getN w selfIdx).ownId
  · refine ⟨1, ?_, ?_⟩
    · rw [joinDhtT, if_pos heq]; rfl
    · rw [joinDht, joinDhtT, if_pos heq]; rfl
  · have key : ∀ fuel, (joinDhtT selfIdx entryIdx fuel w).isSome →
        (joinDht selfIdx entryIdx fuel w).isSome := by
      intro fuel h
      rw [joinDht]
      cases hx : joinDhtT selfIdx entryIdx fuel w with
      | none => rw [hx] at h; simp at h
      | some p => rfl
    cases hcd : closestDistOf (joinSeed selfIdx entryIdx w) selfIdx with
    | none =>
      have h := outerLoopT_total selfIdx 0 3 (joinSeed selfIdx entryIdx w)
        (by omega) (Or.inl hcd)
      rw [← joinDhtT_eq_outer selfIdx entryIdx 3 w heq] at h
      exact ⟨3, h, key 3 h⟩
    | some dd =>
      have h := outerLoopT_total selfIdx dd (2 * dd + 3) (joinSeed selfIdx entryIdx w)
        (by omega) (Or.inr ⟨dd, hcd, Nat.le_refl _⟩)
      rw [← joinDhtT_eq_outer selfIdx entryIdx (2 * dd + 3) w heq] at h
      exact ⟨2 * dd + 3, h, key (2 * dd + 3) h⟩
